import Mathlib

/-!
Verification development for the logseq media-timestamp plugin.

The development shallowly embeds the two components of the repository:

* the floating-player engine of `src/floatingPlayer.ts` (module-level mutable
  variables become fields of `EngineState`; the DOM is a finite map from
  element ids to ordered children lists; each event handler becomes a state
  transformer; browser events become the `Ev` type and `stepEv` dispatches
  them exactly as the attached listeners would);
* the video locator / timestamp logic of the main plugin file (`getVideoEl`,
  the slash-command text, and the macro renderer), with the host block API
  abstracted as an environment of `getBlock` / DOM-query functions.

Rendered video dimensions (`offsetWidth` / `offsetHeight`) are modelled as a
fixed per-video environment function carried in the state and never modified
by any event, so "the video's dimensions at the moment of floating" coincide
with the fixed value.
-/

/-- Size enumeration from `FloatingPlayerSettings` in floatingPlayer.ts. -/
inductive PlayerSize where
  | small | medium | large | xlarge | xxlarge | xxxlarge
deriving DecidableEq, Repr

/-- Settings record `{ enabled, size }` from floatingPlayer.ts. -/
structure FloatingPlayerSettings where
  enabled : Bool
  size : PlayerSize
deriving DecidableEq, Repr

/-- SIZE_MAP from floatingPlayer.ts: fixed pixel dimensions per size. -/
def SIZE_MAP : PlayerSize → Nat × Nat
  | .small => (240, 135)
  | .medium => (320, 180)
  | .large => (400, 225)
  | .xlarge => (480, 270)
  | .xxlarge => (640, 360)
  | .xxxlarge => (800, 450)

/-- Identity of a DOM element that can hold children: the floating container
(created by `createFloatingContainer`) or an ordinary page element. -/
inductive ElemId where
  | container
  | el (n : Nat)
deriving DecidableEq, Repr

/-- A DOM node that can occur in a children list: a video element, a
placeholder created by `showFloatingPlayer`, or any other node. -/
inductive DNode where
  | vid (v : Nat)
  | ph (k : Nat)
  | other (n : Nat)
deriving DecidableEq, Repr

/-- The document: element ids with their ordered children lists. -/
abbrev Dom : Type := List (ElemId × List DNode)

/-- Remove every occurrence of a node from a children list (`removeChild`
on the unique occurrence; lists are kept duplicate-free by `DomOK`). -/
def eraseN (x : DNode) : List DNode → List DNode
  | [] => []
  | c :: cs => if c = x then eraseN x cs else c :: eraseN x cs

/-- Insert a node directly before the first occurrence of `ref` (the DOM
`insertBefore`; all call sites guard that `ref` is present). -/
def insBefore (x ref : DNode) : List DNode → List DNode
  | [] => [x]
  | c :: cs => if c = ref then x :: c :: cs else c :: insBefore x ref cs

/-- The sibling that directly follows the first occurrence of `x`
(the DOM `nextSibling`). -/
def nextAfter (x : DNode) : List DNode → Option DNode
  | [] => none
  | c :: cs => if c = x then cs.head? else nextAfter x cs

/-- Keys (element ids) of a document. -/
def Dom.keys (d : Dom) : List ElemId := d.map Prod.fst

/-- Children of the element `p` (empty if `p` is not in the document). -/
def Dom.childrenOf : Dom → ElemId → List DNode
  | [], _ => []
  | pc :: rest, p => if pc.1 = p then pc.2 else Dom.childrenOf rest p

/-- Replace the children list of the element `p`. -/
def Dom.setChildren : Dom → ElemId → List DNode → Dom
  | [], _, _ => []
  | pc :: rest, p, cs => if pc.1 = p then (p, cs) :: rest else pc :: Dom.setChildren rest p cs

/-- Parent element of a node (`parentElement` / `parentNode`). -/
def Dom.parentOf : Dom → DNode → Option ElemId
  | [], _ => none
  | pc :: rest, n => if n ∈ pc.2 then some pc.1 else Dom.parentOf rest n

/-- Detach a node from the document (part of the DOM move semantics:
inserting a node first removes it from its current parent). -/
def Dom.removeNode (d : Dom) (x : DNode) : Dom :=
  d.map (fun pc => (pc.1, eraseN x pc.2))

/-- DOM `parent.insertBefore(x, ref)`: detach `x`, then insert it directly
before `ref` among the children of `p`. -/
def Dom.insertBefore (d : Dom) (p : ElemId) (x ref : DNode) : Dom :=
  (d.removeNode x).setChildren p (insBefore x ref ((d.removeNode x).childrenOf p))

/-- DOM `parent.appendChild(x)`: detach `x`, then append it to `p`. -/
def Dom.appendChild (d : Dom) (p : ElemId) (x : DNode) : Dom :=
  (d.removeNode x).setChildren p (((d.removeNode x).childrenOf p) ++ [x])

/-- Delete an element (and its children) from the document
(`floatingContainer.remove()` in `destroyFloatingPlayer`). -/
def Dom.removeKey : Dom → ElemId → Dom
  | [], _ => []
  | pc :: rest, p => if pc.1 = p then Dom.removeKey rest p else pc :: Dom.removeKey rest p

/-- All nodes of the document in order. -/
def Dom.nodes : Dom → List DNode
  | [] => []
  | pc :: rest => pc.2 ++ Dom.nodes rest

/-- Wellformedness of the document: element ids are distinct and every node
is attached at most once (as in a real DOM tree). -/
def DomOK (d : Dom) : Prop := d.keys.Nodup ∧ d.nodes.Nodup

instance (d : Dom) : Decidable (DomOK d) := by
  unfold DomOK; exact inferInstance

/-- Does a children list contain a placeholder node? (Executable form used
by the initial-state predicate.) -/
def hasPhNode : List DNode → Bool
  | [] => false
  | .ph _ :: _ => true
  | _ :: cs => hasPhNode cs

/-- VideoState from floatingPlayer.ts: the floating video, its original
parent, its original next sibling and the placeholder left in its place. -/
structure VideoState where
  video : Nat
  originalParent : ElemId
  originalNextSibling : Option DNode
  placeholder : Nat
deriving DecidableEq, Repr

/-- Inline style of the floating container (`display`, `left`, `top`,
`right`, `bottom`, `width`, `height`); `none` stands for an unset or
`auto` value. -/
structure ContStyle where
  display : Bool
  left : Option Int
  top : Option Int
  right : Option Int
  bottom : Option Int
  width : Nat
  height : Nat
deriving DecidableEq, Repr

/-- Inline style of the container as created by `createFloatingContainer`
(`display: none`, nothing else set inline). -/
def initialContStyle : ContStyle := ⟨false, none, none, none, none, 0, 0⟩

/-- The module-level mutable state of floatingPlayer.ts, together with the
document and the fixed browser environment (viewport size, rendered video
dimensions). `floatingContainer`, `hasObserver` and `hasPlayListener` record
whether the container element, the IntersectionObserver and the capture-phase
play listener exist; `observedTargets` records the observer's target set;
`styleW`/`styleH` are each video's inline width/height style; `origStyles`
is the `_originalStyles` expando; `phDims` records each placeholder's
width/height style set at creation; `freshPh` supplies fresh placeholder
identities; `offW`/`offH` and `viewportW`/`viewportH` are the environment. -/
structure EngineState where
  recentlyPlayedVideo : Option Nat
  floatingContainer : Bool
  hasObserver : Bool
  hasPlayListener : Bool
  isManuallyHidden : Bool
  isDragging : Bool
  dragOffset : Int × Int
  currentSettings : FloatingPlayerSettings
  videoState : Option VideoState
  isFloating : Bool
  dom : Dom
  contStyle : ContStyle
  observedTargets : List DNode
  styleW : Nat → String
  styleH : Nat → String
  origStyles : Nat → Option (String × String)
  phDims : Nat → Nat × Nat
  freshPh : Nat
  offW : Nat → Nat
  offH : Nat → Nat
  viewportW : Int
  viewportH : Int

/-- showFloatingPlayer from floatingPlayer.ts: when a tracked video exists,
the container exists, the feature is enabled, the player is not manually
hidden and nothing floats yet, record the video's original position, insert
a same-size placeholder before it, move the video into the container and
show the container. -/
def showFloatingPlayer (s : EngineState) : EngineState :=
  match s.recentlyPlayedVideo with
  | none => s
  | some v =>
    if s.floatingContainer = false then s
    else if s.currentSettings.enabled = false then s
    else if s.isManuallyHidden = true then s
    else if s.isFloating = true then s
    else
      match s.dom.parentOf (.vid v) with
      | none => s
      | some parent =>
        let sib := nextAfter (.vid v) (s.dom.childrenOf parent)
        let phId := s.freshPh
        let vs : VideoState := ⟨v, parent, sib, phId⟩
        let dom1 := s.dom.insertBefore parent (.ph phId) (.vid v)
        let size := SIZE_MAP s.currentSettings.size
        let dom2 := dom1.appendChild .container (.vid v)
        { s with
          videoState := some vs
          phDims := fun k => if k = phId then (s.offW v, s.offH v) else s.phDims k
          origStyles := fun k => if k = v then some (s.styleW v, s.styleH v) else s.origStyles k
          styleW := fun k => if k = v then "100%" else s.styleW k
          styleH := fun k => if k = v then "100%" else s.styleH k
          contStyle := { s.contStyle with width := size.1, height := size.2, display := true }
          dom := dom2
          freshPh := s.freshPh + 1
          isFloating := true }

/-- DOM mutation performed by `hideFloatingPlayer`: reinsert the video
before the recorded next sibling when that sibling is still a child of the
original parent (else append it to the original parent), then remove the
placeholder (which is only detached when still attached; detaching an
absent node is a no-op). -/
def hideDomOp (d : Dom) (vs : VideoState) : Dom :=
  (match vs.originalNextSibling with
   | some sib =>
     if d.parentOf sib = some vs.originalParent then
       d.insertBefore vs.originalParent (.vid vs.video) sib
     else
       d.appendChild vs.originalParent (.vid vs.video)
   | none => d.appendChild vs.originalParent (.vid vs.video)).removeNode
    (.ph vs.placeholder)

/-- hideFloatingPlayer from floatingPlayer.ts: restore the video's original
inline size (when the `_originalStyles` expando is present, deleting it),
perform the reinsertion and placeholder removal of `hideDomOp`, hide the
container and reset its corner position. -/
def hideFloatingPlayer (s : EngineState) : EngineState :=
  if s.floatingContainer = false then s
  else if s.isFloating = false then s
  else
    match s.videoState with
    | none => s
    | some vs =>
      let restored :=
        match s.origStyles vs.video with
        | some wh =>
          (fun k => if k = vs.video then wh.1 else s.styleW k,
           fun k => if k = vs.video then wh.2 else s.styleH k,
           fun k => if k = vs.video then none else s.origStyles k)
        | none => (s.styleW, s.styleH, s.origStyles)
      { s with
        styleW := restored.1
        styleH := restored.2.1
        origStyles := restored.2.2
        dom := hideDomOp s.dom vs
        contStyle := { s.contStyle with
          display := false, left := none, top := none,
          right := some 20, bottom := some 20 }
        videoState := none
        isFloating := false }

/-- handleVideoPlay from floatingPlayer.ts for a play event whose target is
the video `v`: switching to a different video clears the manual-hide flag and
returns any other floating video to its origin, then the video becomes the
tracked one and the observer is re-targeted (placeholder when floating,
video otherwise). -/
def handleVideoPlay (s : EngineState) (v : Nat) : EngineState :=
  let s1 :=
    if s.recentlyPlayedVideo ≠ some v then
      let s0 := { s with isManuallyHidden := false }
      let otherFloats : Bool :=
        s0.isFloating && (match s0.videoState with
          | some vs => decide (vs.video ≠ v)
          | none => false)
      if otherFloats = true then hideFloatingPlayer s0 else s0
    else s
  let s2 := { s1 with recentlyPlayedVideo := some v }
  if s2.hasObserver then
    let target : DNode :=
      match s2.isFloating, s2.videoState with
      | true, some vs => .ph vs.placeholder
      | _, _ => .vid v
    { s2 with observedTargets := [target] }
  else s2

/-- handleIntersection from floatingPlayer.ts for one entry with target `t`
and intersection flag `inter`: the entry is acted on only when its target is
the currently relevant element (the placeholder when floating, the tracked
video otherwise); visibility loss while docked floats the video, visibility
gain of the placeholder while floating docks it and clears the manual-hide
flag; the observer is re-targeted after each transition. -/
def handleIntersection (s : EngineState) (t : DNode) (inter : Bool) : EngineState :=
  let valid : Bool :=
    if s.isFloating = true then
      match s.videoState with
      | some vs => decide (t = .ph vs.placeholder)
      | none => false
    else
      match s.recentlyPlayedVideo with
      | some v => decide (t = .vid v)
      | none => false
  if valid = true then
    if inter = false ∧ s.isFloating = false then
      let s1 := showFloatingPlayer s
      if s1.hasObserver then
        match s1.videoState with
        | some vs => { s1 with observedTargets := [DNode.ph vs.placeholder] }
        | none => s1
      else s1
    else if inter = true ∧ s.isFloating = true then
      let s1 := hideFloatingPlayer s
      let s2 := { s1 with isManuallyHidden := false }
      if s2.hasObserver then
        match s2.recentlyPlayedVideo with
        | some v => { s2 with observedTargets := [DNode.vid v] }
        | none => s2
      else s2
    else s
  else s

/-- startDrag from floatingPlayer.ts: record the pointer offset inside the
container (client coordinates minus the container rect's corner, the rect
being supplied by the browser) and enter the dragging mode. -/
def startDrag (s : EngineState) (cx cy rectL rectT : Int) : EngineState :=
  if s.floatingContainer = false then s
  else { s with isDragging := true, dragOffset := (cx - rectL, cy - rectT) }

/-- onDrag from floatingPlayer.ts: for pointer position `(cx, cy)` compute
the new container corner and clamp it to the viewport with a 10px margin,
then set `left`/`top` (clearing `right`/`bottom`). -/
def onDrag (s : EngineState) (cx cy : Int) : EngineState :=
  if s.isDragging = false then s
  else if s.floatingContainer = false then s
  else
    let size := SIZE_MAP s.currentSettings.size
    let newX := max 10 (min (cx - s.dragOffset.1) (s.viewportW - (size.1 : Int) - 10))
    let newY := max 10 (min (cy - s.dragOffset.2) (s.viewportH - (size.2 : Int) - 10))
    { s with contStyle := { s.contStyle with
        right := none, bottom := none, left := some newX, top := some newY } }

/-- stopDrag from floatingPlayer.ts: leave the dragging mode and detach the
transient move/up listeners. -/
def stopDrag (s : EngineState) : EngineState :=
  { s with isDragging := false }

/-- initFloatingPlayer from floatingPlayer.ts: store the settings; when
enabled, create the container if absent, create the observer, attach the
capture-phase play listener, and track/observe the already playing videos
(`playing` lists them in document order, so the last one wins). -/
def initFloatingPlayer (s : EngineState) (st : FloatingPlayerSettings)
    (playing : List Nat) : EngineState :=
  let s1 := { s with currentSettings := st }
  if st.enabled = false then s1
  else
    let s2 :=
      if s1.floatingContainer = false then
        { s1 with
          floatingContainer := true
          contStyle := initialContStyle
          dom := s1.dom ++ [(ElemId.container, [])] }
      else s1
    let s3 := { s2 with hasObserver := true, observedTargets := [], hasPlayListener := true }
    playing.foldl
      (fun acc v =>
        { acc with
          recentlyPlayedVideo := some v
          observedTargets := acc.observedTargets ++ [DNode.vid v] })
      s3

/-- updateFloatingPlayerSettings from floatingPlayer.ts: store the settings,
force the reversal to docked when the feature is disabled while the
container exists, and resize the container in place while it is visible. -/
def updateFloatingPlayerSettings (s : EngineState) (st : FloatingPlayerSettings) : EngineState :=
  let s1 := { s with currentSettings := st }
  let s2 :=
    if st.enabled = false ∧ s1.floatingContainer = true then hideFloatingPlayer s1 else s1
  if s2.floatingContainer = true ∧ s2.contStyle.display = true then
    let size := SIZE_MAP st.size
    { s2 with contStyle := { s2.contStyle with width := size.1, height := size.2 } }
  else s2

/-- destroyFloatingPlayer from floatingPlayer.ts: return the video if
floating, detach the play listener, disconnect and drop the observer,
remove the container and clear all state. -/
def destroyFloatingPlayer (s : EngineState) : EngineState :=
  let s1 := hideFloatingPlayer s
  { s1 with
    hasPlayListener := false
    hasObserver := false
    observedTargets := []
    dom := s1.dom.removeKey .container
    floatingContainer := false
    recentlyPlayedVideo := none
    isManuallyHidden := false
    isFloating := false
    videoState := none }

/-- getFloatingVideo from floatingPlayer.ts. -/
def getFloatingVideo (s : EngineState) : Option Nat :=
  match s.isFloating, s.videoState with
  | true, some vs => some vs.video
  | _, _ => none

/-- returnFloatingVideo from floatingPlayer.ts (the pause request is a
playback side effect outside the model). -/
def returnFloatingVideo (s : EngineState) : EngineState :=
  match s.isFloating, s.videoState with
  | true, some _ => hideFloatingPlayer s
  | _, _ => s

/-- Discrete events delivered by the browser or the host: the exported
initialization / settings / teardown calls, a play event on a video, an
IntersectionObserver entry with its target and intersection flag, a click
on the close button, and the drag gesture. -/
inductive Ev where
  | init (st : FloatingPlayerSettings) (playing : List Nat)
  | update (st : FloatingPlayerSettings)
  | play (v : Nat)
  | vis (t : DNode) (inter : Bool)
  | close
  | dragStart (cx cy rectL rectT : Int)
  | dragMove (cx cy : Int)
  | dragEnd
  | destroy

/-- Event dispatch: each handler runs only when the listener or element it
is attached to exists (the play listener for play events, the observer for
intersection entries, the container for the close button and drag handle). -/
def stepEv (s : EngineState) : Ev → EngineState
  | .init st playing => initFloatingPlayer s st playing
  | .update st => updateFloatingPlayerSettings s st
  | .play v => if s.hasPlayListener = true then handleVideoPlay s v else s
  | .vis t inter => if s.hasObserver = true then handleIntersection s t inter else s
  | .close =>
    if s.floatingContainer = true then
      { hideFloatingPlayer s with isManuallyHidden := true }
    else s
  | .dragStart cx cy rl rt => startDrag s cx cy rl rt
  | .dragMove cx cy => onDrag s cx cy
  | .dragEnd => stopDrag s
  | .destroy => destroyFloatingPlayer s

/-- Run a sequence of events. -/
def runEv (s : EngineState) (evs : List Ev) : EngineState := evs.foldl stepEv s

/-- Initial module state of floatingPlayer.ts (the top-level `let`
declarations) over a wellformed document that contains no placeholder and
no floating container yet. -/
structure InitSt (s : EngineState) : Prop where
  rp : s.recentlyPlayedVideo = none
  fc : s.floatingContainer = false
  ob : s.hasObserver = false
  pl : s.hasPlayListener = false
  mh : s.isManuallyHidden = false
  dr : s.isDragging = false
  vs : s.videoState = none
  fl : s.isFloating = false
  domOK : DomOK s.dom
  noPh : hasPhNode s.dom.nodes = false
  noCont : ElemId.container ∉ s.dom.keys

/-- Block record returned by the host's `getBlock`: its uuid and the
identifiers of its left sibling and parent (the code accepts either a direct
id or an object carrying one; the model keeps just the id). -/
structure Block where
  uuid : Nat
  left : Option Nat
  parent : Option Nat
deriving DecidableEq, Repr

/-- Environment of `getVideoEl`: the host block API (`getBlock`, which can
reject), the DOM queries `findVideoInBlock` (`videoIn`) and `hasPlaceholder`
(`hasPH`), and the engine accessor `getFloatingVideo` (`floating`). -/
structure LocEnv where
  getBlock : Nat → Except Unit (Option Block)
  videoIn : Nat → Option Nat
  hasPH : Nat → Bool
  floating : Option Nat

/-- Result of `getVideoEl`: the located video (if any) and whether
`returnFloatingVideo` was invoked on the way. -/
structure LocResult where
  video : Option Nat
  returnedFloating : Bool
deriving DecidableEq, Repr

/-- Second step of the candidate-collection phase of `getVideoEl`: when the
block has a left sibling, resolve it and append its uuid to the candidates.
The lookup is NOT wrapped in try/catch in this phase, so its error
propagates. -/
def collectLeft (env : LocEnv) (blk : Block) (acc : List Nat) : Except Unit (List Nat) :=
  match blk.left with
  | none => .ok acc
  | some l =>
    match env.getBlock l with
    | .error e => .error e
    | .ok none => .ok acc
    | .ok (some lb) => .ok (acc ++ [lb.uuid])

/-- Third step of the candidate-collection phase of `getVideoEl`: the parent
block, likewise without try/catch. -/
def collectParent (env : LocEnv) (blk : Block) (acc : List Nat) : Except Unit (List Nat) :=
  match blk.parent with
  | none => .ok acc
  | some p =>
    match env.getBlock p with
    | .error e => .error e
    | .ok none => .ok acc
    | .ok (some pb) => .ok (acc ++ [pb.uuid])

/-- One guarded candidate of the fallback search of `getVideoEl`: resolve
the sibling/parent id inside try/catch (an exception is logged and the
candidate skipped, yielding `none`) and query its subtree for a video. -/
def searchVia (env : LocEnv) (o : Option Nat) : Option Nat :=
  match o with
  | none => none
  | some i =>
    match env.getBlock i with
    | .error _ => none
    | .ok none => none
    | .ok (some b) => env.videoIn b.uuid

/-- Fallback DOM search of `getVideoEl`: current block, then left sibling,
then parent, first match wins. -/
def plainSearch (env : LocEnv) (blk : Block) : Option Nat :=
  match env.videoIn blk.uuid with
  | some v => some v
  | none =>
    match searchVia env blk.left with
    | some v => some v
    | none => searchVia env blk.parent

/-- getVideoEl from the main plugin file: resolve the block, collect the
candidate uuids (current, left sibling, parent — the latter two via
unguarded lookups), and if a video is floating return it directly when any
candidate holds its placeholder, else return it to its origin
(`returnedFloating = true`) before the ordinary prioritized search. -/
def getVideoEl (env : LocEnv) (uuid : Nat) : Except Unit LocResult :=
  match env.getBlock uuid with
  | .error e => .error e
  | .ok none => .ok ⟨none, false⟩
  | .ok (some blk) =>
    match collectLeft env blk [blk.uuid] with
    | .error e => .error e
    | .ok bs2 =>
      match collectParent env blk bs2 with
      | .error e => .error e
      | .ok blocksToCheck =>
        match env.floating with
        | some fv =>
          if blocksToCheck.any (fun b => env.hasPH b) then .ok ⟨some fv, false⟩
          else .ok ⟨plainSearch env blk, true⟩
        | none => .ok ⟨plainSearch env blk, false⟩

/-- Decimal digit character. -/
def digitChar (d : Nat) : Char := Char.ofNat (48 + d)

/-- Decimal digits of a natural number (fuel-based helper). -/
def natCharsAux : Nat → Nat → List Char
  | 0, _ => []
  | fuel + 1, n => if n < 10 then [digitChar n] else natCharsAux fuel (n / 10) ++ [digitChar (n % 10)]

/-- Decimal digits of a natural number, as the JS string interpolation
renders an integer. -/
def natChars (n : Nat) : List Char := natCharsAux (n + 1) n

/-- Text inserted by the slash-command handler,
`\x7b\x7brenderer :mediatimestamp_[uuid], [currentTime]\x7d\x7d`, with the
video's current time already rendered to text by JS. -/
def slashCommandText (uuid : Nat) (timeText : List Char) : List Char :=
  "\x7b\x7brenderer :mediatimestamp_".data ++ natChars uuid ++ ", ".data ++ timeText ++ "\x7d\x7d".data

/-- Split a character list at every comma. -/
def splitOnComma : List Char → List (List Char)
  | [] => [[]]
  | c :: cs =>
    if c = ',' then [] :: splitOnComma cs
    else
      match splitOnComma cs with
      | [] => [[c]]
      | g :: gs => (c :: g) :: gs

/-- Drop spaces at both ends. -/
def trimSpaces (l : List Char) : List Char :=
  ((l.dropWhile (fun c => c = ' ')).reverse.dropWhile (fun c => c = ' ')).reverse

/-- Modelled from the spec: the host's macro-rendering mechanics (an
excluded external collaborator) parse the embedded token
`\x7b\x7brenderer [name], [seconds]\x7d\x7d` and hand the renderer hook the
comma-separated argument list after the `renderer` keyword. -/
def macroArgsOfText (t : List Char) : List (List Char) :=
  let inner := (t.drop 2).take ((t.drop 2).length - 2)
  let afterName := inner.drop ("renderer ".data).length
  (splitOnComma afterName).map trimSpaces

/-- Leading-digit value of a character list (`none` when there is no digit),
the core of JS `parseInt`. -/
def digitsVal (t : List Char) : Option Nat :=
  let ds := t.takeWhile Char.isDigit
  if ds = [] then none
  else some (ds.foldl (fun a c => a * 10 + (c.toNat - 48)) 0)

/-- JS `parseInt` on a string: skip leading spaces, honor a sign, read the
leading digits, `none` for NaN. -/
def parseIntChars (t : List Char) : Option Int :=
  let t1 := t.dropWhile (fun c => c = ' ')
  match t1 with
  | [] => none
  | c :: cs =>
    if c = '-' then (digitsVal cs).map (fun n => -(n : Int))
    else if c = '+' then (digitsVal cs).map (fun n => (n : Int))
    else (digitsVal t1).map (fun n => (n : Int))

/-- Digits of an integer as JS renders it. -/
def intChars (n : Int) : List Char :=
  if n < 0 then [Char.ofNat 45] ++ natChars n.natAbs else natChars n.natAbs

/-- Label of the rendered button, `Timestamp: [parseInt time]s`, from the
template in the macro renderer hook. -/
def timestampLabel (time : List Char) : List Char :=
  "Timestamp: ".data ++
    (match parseIntChars time with
     | some n => intChars n
     | none => "NaN".data) ++ "s".data

/-- Outcome of a click on the rendered button: `some t` means the located
video's `currentTime` is set to `t` and `play()` is requested; `none` means
the error message is shown. -/
structure ClickOutcome where
  seekTo : Option Int
deriving DecidableEq, Repr

/-- Click handler of the rendered button (`provideModel`): with a located
video and a nonempty time argument, seek to `parseInt(time) || 0` and play. -/
def onTimestampClick (videoFound : Bool) (time : List Char) : ClickOutcome :=
  if videoFound = false ∨ time = [] then ⟨none⟩
  else ⟨some (match parseIntChars time with
    | some n => if n = 0 then 0 else n
    | none => 0)⟩

theorem mem_eraseN {y x : DNode} {cs : List DNode} : y ∈ eraseN x cs ↔ y ∈ cs ∧ y ≠ x := by
  induction cs with
  | nil => simp [eraseN]
  | cons c cs ih => simp only [eraseN, List.mem_cons]; split <;> aesop

theorem eraseN_of_not_mem {x : DNode} {cs : List DNode} (h : x ∉ cs) : eraseN x cs = cs := by
  induction cs with
  | nil => rfl
  | cons c cs ih =>
    simp only [List.mem_cons, not_or] at h
    simp only [eraseN]
    rw [if_neg (fun e => h.1 e.symm), ih h.2]

theorem eraseN_append (x : DNode) (a b : List DNode) :
    eraseN x (a ++ b) = eraseN x a ++ eraseN x b := by
  induction a with
  | nil => rfl
  | cons c cs ih => simp only [List.cons_append, eraseN]; split <;> simp [ih]

theorem eraseN_sublist (x : DNode) (cs : List DNode) : (eraseN x cs).Sublist cs := by
  induction cs with
  | nil => exact List.Sublist.refl _
  | cons c cs ih =>
    simp only [eraseN]
    split
    · exact ih.trans (List.sublist_cons_self c cs)
    · exact ih.cons₂ c

theorem insBefore_append_left {ref : DNode} (x : DNode) {a : List DNode} (b : List DNode)
    (h : ref ∉ a) : insBefore x ref (a ++ b) = a ++ insBefore x ref b := by
  induction a with
  | nil => rfl
  | cons c cs ih =>
    simp only [List.mem_cons, not_or] at h
    show insBefore x ref (c :: (cs ++ b)) = c :: (cs ++ insBefore x ref b)
    simp only [insBefore]
    rw [if_neg (fun e => h.1 e.symm), ih h.2]

theorem insBefore_cons_self (x ref : DNode) (cs : List DNode) :
    insBefore x ref (ref :: cs) = x :: ref :: cs := by
  simp [insBefore]

theorem insBefore_perm (x ref : DNode) (cs : List DNode) :
    (insBefore x ref cs).Perm (x :: cs) := by
  induction cs with
  | nil => exact List.Perm.refl _
  | cons c cs ih =>
    simp only [insBefore]
    split
    · exact List.Perm.refl _
    · exact (ih.cons c).trans (List.Perm.swap x c cs)

theorem mem_insBefore {y x ref : DNode} {cs : List DNode} (h : y ∈ insBefore x ref cs) :
    y = x ∨ y ∈ cs := by
  induction cs with
  | nil => simp only [insBefore, List.mem_singleton] at h; exact Or.inl h
  | cons c cs ih =>
    simp only [insBefore] at h
    split at h
    · rcases List.mem_cons.1 h with h1 | h1
      · exact Or.inl h1
      · exact Or.inr h1
    · rcases List.mem_cons.1 h with h1 | h1
      · exact Or.inr (List.mem_cons.2 (Or.inl h1))
      · rcases ih h1 with h2 | h2
        · exact Or.inl h2
        · exact Or.inr (List.mem_cons.2 (Or.inr h2))

theorem nextAfter_append {x : DNode} {a : List DNode} (b : List DNode) (h : x ∉ a) :
    nextAfter x (a ++ b) = nextAfter x b := by
  induction a with
  | nil => rfl
  | cons c cs ih =>
    simp only [List.mem_cons, not_or] at h
    show nextAfter x (c :: (cs ++ b)) = nextAfter x b
    simp only [nextAfter]
    rw [if_neg (fun e => h.1 e.symm), ih h.2]

theorem nextAfter_cons_self (x : DNode) (cs : List DNode) :
    nextAfter x (x :: cs) = cs.head? := by
  simp [nextAfter]

theorem nextAfter_decomp {x : DNode} {a b : List DNode} (h : x ∉ a) :
    nextAfter x (a ++ x :: b) = b.head? := by
  rw [nextAfter_append _ h, nextAfter_cons_self]

theorem mem_decomp_of_nodup {x : DNode} {cs : List DNode} (hm : x ∈ cs) (hn : cs.Nodup) :
    ∃ a b, cs = a ++ x :: b ∧ x ∉ a ∧ x ∉ b := by
  obtain ⟨a, b, rfl⟩ := List.append_of_mem hm
  refine ⟨a, b, rfl, ?_, ?_⟩
  · intro hxa
    exact (List.disjoint_of_nodup_append hn) hxa (List.mem_cons_self x b)
  · have := (List.nodup_append.1 hn).2.1
    exact (List.nodup_cons.1 this).1

theorem getLast?_append_cons_nil (a : List DNode) (x : DNode) :
    (a ++ [x]).getLast? = some x := by
  simp [List.getLast?_append]

theorem keys_setChildren (d : Dom) (p : ElemId) (cs : List DNode) :
    (d.setChildren p cs).keys = d.keys := by
  induction d with
  | nil => rfl
  | cons pc rest ih =>
    simp only [Dom.setChildren]
    split
    · next h => simp [Dom.keys, h]
    · simp only [Dom.keys, List.map_cons] at *
      rw [ih]

theorem setChildren_of_not_mem_keys {d : Dom} {p : ElemId} (cs : List DNode)
    (h : p ∉ d.keys) : d.setChildren p cs = d := by
  induction d with
  | nil => rfl
  | cons pc rest ih =>
    simp only [Dom.keys, List.map_cons, List.mem_cons, not_or] at h
    simp only [Dom.setChildren]
    rw [if_neg (fun e => h.1 e.symm), ih h.2]

theorem keys_removeNode (d : Dom) (x : DNode) : (d.removeNode x).keys = d.keys := by
  induction d with
  | nil => rfl
  | cons pc rest ih =>
    simp only [Dom.removeNode, Dom.keys, List.map_cons] at *
    rw [ih]

theorem childrenOf_eq_nil_of_not_mem_keys {d : Dom} {p : ElemId} (h : p ∉ d.keys) :
    d.childrenOf p = [] := by
  induction d with
  | nil => rfl
  | cons pc rest ih =>
    simp only [Dom.keys, List.map_cons, List.mem_cons, not_or] at h
    simp only [Dom.childrenOf]
    rw [if_neg (fun e => h.1 e.symm)]
    exact ih h.2

theorem childrenOf_setChildren_self {d : Dom} {p : ElemId} (cs : List DNode)
    (h : p ∈ d.keys) : (d.setChildren p cs).childrenOf p = cs := by
  induction d with
  | nil => simp [Dom.keys] at h
  | cons pc rest ih =>
    simp only [Dom.setChildren]
    split
    · simp [Dom.childrenOf]
    · next hne =>
      simp only [Dom.childrenOf]
      rw [if_neg hne]
      simp only [Dom.keys, List.map_cons, List.mem_cons] at h
      exact ih (h.resolve_left (fun e => hne e.symm))

theorem childrenOf_setChildren_ne {d : Dom} {p q : ElemId} (cs : List DNode)
    (h : q ≠ p) : (d.setChildren p cs).childrenOf q = d.childrenOf q := by
  induction d with
  | nil => rfl
  | cons pc rest ih =>
    simp only [Dom.setChildren]
    split
    · next he =>
      simp only [Dom.childrenOf]
      rw [if_neg (fun e : p = q => h e.symm), if_neg (fun e : pc.1 = q => h (e.symm.trans he))]
    · simp only [Dom.childrenOf]
      split
      · rfl
      · exact ih

theorem childrenOf_removeNode (d : Dom) (x : DNode) (p : ElemId) :
    (d.removeNode x).childrenOf p = eraseN x (d.childrenOf p) := by
  induction d with
  | nil => rfl
  | cons pc rest ih =>
    simp only [Dom.removeNode, List.map_cons, Dom.childrenOf] at *
    split
    · rfl
    · exact ih

theorem childrenOf_sublist_nodes (d : Dom) (p : ElemId) :
    (d.childrenOf p).Sublist d.nodes := by
  induction d with
  | nil => exact List.Sublist.refl _
  | cons pc rest ih =>
    simp only [Dom.childrenOf, Dom.nodes]
    split
    · exact List.sublist_append_left _ _
    · exact ih.trans (List.sublist_append_right _ _)

theorem mem_nodes_of_mem_childrenOf {d : Dom} {p : ElemId} {x : DNode}
    (h : x ∈ d.childrenOf p) : x ∈ d.nodes :=
  (childrenOf_sublist_nodes d p).mem h

theorem parentOf_mem_keys {d : Dom} {x : DNode} {p : ElemId}
    (h : d.parentOf x = some p) : p ∈ d.keys := by
  induction d with
  | nil => simp [Dom.parentOf] at h
  | cons pc rest ih =>
    simp only [Dom.parentOf] at h
    simp only [Dom.keys, List.map_cons, List.mem_cons]
    split at h
    · exact Or.inl (Option.some.inj h).symm
    · exact Or.inr (ih h)

theorem mem_childrenOf_of_parentOf {d : Dom} {x : DNode} {p : ElemId}
    (hk : d.keys.Nodup) (h : d.parentOf x = some p) : x ∈ d.childrenOf p := by
  induction d with
  | nil => simp [Dom.parentOf] at h
  | cons pc rest ih =>
    simp only [Dom.parentOf] at h
    simp only [Dom.keys, List.map_cons, List.nodup_cons] at hk
    simp only [Dom.childrenOf]
    split at h
    · next hmem =>
      have : pc.1 = p := Option.some.inj h
      rw [if_pos this]
      exact hmem
    · have hp : p ∈ Dom.keys rest := parentOf_mem_keys h
      have hne : ¬ pc.1 = p := fun e => hk.1 (e ▸ hp)
      rw [if_neg hne]
      exact ih hk.2 h

theorem parentOf_eq_some_of_mem {d : Dom} {x : DNode} {p : ElemId}
    (hOK : DomOK d) (h : x ∈ d.childrenOf p) : d.parentOf x = some p := by
  induction d with
  | nil => simp [Dom.childrenOf] at h
  | cons pc rest ih =>
    obtain ⟨hk, hn⟩ := hOK
    simp only [Dom.keys, List.map_cons, List.nodup_cons] at hk
    simp only [Dom.nodes, List.nodup_append] at hn
    simp only [Dom.childrenOf] at h
    simp only [Dom.parentOf]
    split at h
    · next he => rw [if_pos h, he]
    · next hne =>
      have hrest : x ∈ Dom.nodes rest := mem_nodes_of_mem_childrenOf h
      have hnot : x ∉ pc.2 := fun hx => hn.2.2 hx hrest
      rw [if_neg hnot]
      exact ih ⟨hk.2, hn.2.1⟩ h

theorem setChildren_nodes_decomp {d : Dom} {p : ElemId} (h : p ∈ d.keys) :
    ∃ A B, d.nodes = A ++ d.childrenOf p ++ B ∧
      ∀ cs, (d.setChildren p cs).nodes = A ++ cs ++ B := by
  induction d with
  | nil => simp [Dom.keys] at h
  | cons pc rest ih =>
    by_cases he : pc.1 = p
    · refine ⟨[], Dom.nodes rest, ?_, ?_⟩
      · simp [Dom.nodes, Dom.childrenOf, he]
      · intro cs
        simp [Dom.setChildren, Dom.nodes, he]
    · simp only [Dom.keys, List.map_cons, List.mem_cons] at h
      obtain ⟨A, B, h1, h2⟩ := ih (h.resolve_left (fun e => he e.symm))
      refine ⟨pc.2 ++ A, B, ?_, ?_⟩
      · simp only [Dom.nodes, Dom.childrenOf]
        rw [if_neg he, h1]
        simp [List.append_assoc]
      · intro cs
        simp only [Dom.setChildren]
        rw [if_neg he]
        simp only [Dom.nodes, h2 cs]
        simp [List.append_assoc]

theorem nodes_removeNode_sublist (d : Dom) (x : DNode) :
    (d.removeNode x).nodes.Sublist d.nodes := by
  induction d with
  | nil => exact List.Sublist.refl _
  | cons pc rest ih =>
    simp only [Dom.removeNode, List.map_cons, Dom.nodes] at *
    exact List.Sublist.append (eraseN_sublist x pc.2) ih

theorem not_mem_nodes_removeNode (d : Dom) (x : DNode) : x ∉ (d.removeNode x).nodes := by
  induction d with
  | nil => simp [Dom.removeNode, Dom.nodes]
  | cons pc rest ih =>
    simp only [Dom.removeNode, List.map_cons, Dom.nodes, List.mem_append, not_or] at *
    exact ⟨fun hx => ((mem_eraseN).1 hx).2 rfl, ih⟩

theorem nodes_append (d1 d2 : Dom) : (d1 ++ d2).nodes = d1.nodes ++ d2.nodes := by
  induction d1 with
  | nil => rfl
  | cons pc rest ih =>
    show Dom.nodes (pc :: (rest ++ d2)) = (pc.2 ++ Dom.nodes rest) ++ Dom.nodes d2
    simp only [Dom.nodes, ih, List.append_assoc]

theorem keys_append (d1 d2 : Dom) : (d1 ++ d2).keys = d1.keys ++ d2.keys := by
  simp [Dom.keys]

theorem childrenOf_append_left {d1 : Dom} (d2 : Dom) {p : ElemId} (h : p ∈ d1.keys) :
    (d1 ++ d2).childrenOf p = d1.childrenOf p := by
  induction d1 with
  | nil => simp [Dom.keys] at h
  | cons pc rest ih =>
    show Dom.childrenOf (pc :: (rest ++ d2)) p = Dom.childrenOf (pc :: rest) p
    simp only [Dom.childrenOf]
    split
    · rfl
    · next hne =>
      simp only [Dom.keys, List.map_cons, List.mem_cons] at h
      exact ih (h.resolve_left (fun e => hne e.symm))

theorem childrenOf_append_right {d1 : Dom} (d2 : Dom) {p : ElemId} (h : p ∉ d1.keys) :
    (d1 ++ d2).childrenOf p = d2.childrenOf p := by
  induction d1 with
  | nil => rfl
  | cons pc rest ih =>
    simp only [Dom.keys, List.map_cons, List.mem_cons, not_or] at h
    show Dom.childrenOf (pc :: (rest ++ d2)) p = Dom.childrenOf d2 p
    simp only [Dom.childrenOf]
    rw [if_neg (fun e => h.1 e.symm)]
    exact ih h.2

theorem mem_keys_removeKey {d : Dom} {p q : ElemId} :
    q ∈ (d.removeKey p).keys ↔ q ∈ d.keys ∧ q ≠ p := by
  induction d with
  | nil => simp [Dom.removeKey, Dom.keys]
  | cons pc rest ih =>
    simp only [Dom.removeKey]
    split
    · next he =>
      rw [ih]
      simp only [Dom.keys, List.map_cons, List.mem_cons]
      subst he
      constructor
      · rintro ⟨h1, h2⟩; exact ⟨Or.inr h1, h2⟩
      · rintro ⟨h1 | h1, h2⟩
        · exact absurd h1 h2
        · exact ⟨h1, h2⟩
    · next hne =>
      show q ∈ Dom.keys (pc :: Dom.removeKey rest p) ↔ _
      simp only [Dom.keys, List.map_cons, List.mem_cons]
      rw [show (q ∈ List.map Prod.fst (Dom.removeKey rest p)) = (q ∈ Dom.keys (Dom.removeKey rest p)) from rfl, ih]
      constructor
      · rintro (h1 | ⟨h1, h2⟩)
        · exact ⟨Or.inl h1, fun e => hne (h1 ▸ e)⟩
        · exact ⟨Or.inr h1, h2⟩
      · rintro ⟨h1 | h1, h2⟩
        · exact Or.inl h1
        · exact Or.inr ⟨h1, h2⟩

theorem keys_removeKey_sublist (d : Dom) (p : ElemId) :
    (d.removeKey p).keys.Sublist d.keys := by
  induction d with
  | nil => exact List.Sublist.refl _
  | cons pc rest ih =>
    simp only [Dom.removeKey]
    split
    · exact ih.trans (by simp [Dom.keys])
    · simp only [Dom.keys, List.map_cons]
      exact ih.cons₂ pc.1

theorem nodes_removeKey_sublist (d : Dom) (p : ElemId) :
    (d.removeKey p).nodes.Sublist d.nodes := by
  induction d with
  | nil => exact List.Sublist.refl _
  | cons pc rest ih =>
    simp only [Dom.removeKey]
    split
    · exact ih.trans (by simp only [Dom.nodes]; exact List.sublist_append_right _ _)
    · simp only [Dom.nodes]
      exact List.Sublist.append (List.Sublist.refl _) ih

theorem childrenOf_removeKey_ne {d : Dom} {p q : ElemId} (h : q ≠ p) :
    (d.removeKey p).childrenOf q = d.childrenOf q := by
  induction d with
  | nil => rfl
  | cons pc rest ih =>
    simp only [Dom.removeKey]
    split
    · next he =>
      rw [ih]
      simp only [Dom.childrenOf]
      rw [if_neg (fun e : pc.1 = q => h (e.symm.trans he))]
    · simp only [Dom.childrenOf]
      split
      · rfl
      · exact ih

theorem keys_insertBefore (d : Dom) (p : ElemId) (x ref : DNode) :
    (d.insertBefore p x ref).keys = d.keys := by
  rw [Dom.insertBefore, keys_setChildren, keys_removeNode]

theorem keys_appendChild (d : Dom) (p : ElemId) (x : DNode) :
    (d.appendChild p x).keys = d.keys := by
  rw [Dom.appendChild, keys_setChildren, keys_removeNode]

theorem childrenOf_insertBefore_self {d : Dom} {p : ElemId} (x ref : DNode) (h : p ∈ d.keys) :
    (d.insertBefore p x ref).childrenOf p = insBefore x ref (eraseN x (d.childrenOf p)) := by
  rw [Dom.insertBefore,
    childrenOf_setChildren_self _ (by rw [keys_removeNode]; exact h), childrenOf_removeNode]

theorem childrenOf_insertBefore_ne {d : Dom} {p q : ElemId} (x ref : DNode) (h : q ≠ p) :
    (d.insertBefore p x ref).childrenOf q = eraseN x (d.childrenOf q) := by
  rw [Dom.insertBefore, childrenOf_setChildren_ne _ h, childrenOf_removeNode]

theorem childrenOf_appendChild_self {d : Dom} {p : ElemId} (x : DNode) (h : p ∈ d.keys) :
    (d.appendChild p x).childrenOf p = eraseN x (d.childrenOf p) ++ [x] := by
  rw [Dom.appendChild,
    childrenOf_setChildren_self _ (by rw [keys_removeNode]; exact h), childrenOf_removeNode]

theorem childrenOf_appendChild_ne {d : Dom} {p q : ElemId} (x : DNode) (h : q ≠ p) :
    (d.appendChild p x).childrenOf q = eraseN x (d.childrenOf q) := by
  rw [Dom.appendChild, childrenOf_setChildren_ne _ h, childrenOf_removeNode]

theorem domOK_removeNode {d : Dom} (x : DNode) (h : DomOK d) : DomOK (d.removeNode x) :=
  ⟨by rw [keys_removeNode]; exact h.1, (nodes_removeNode_sublist d x).nodup h.2⟩

theorem domOK_insertBefore {d : Dom} (p : ElemId) (x ref : DNode) (h : DomOK d) :
    DomOK (d.insertBefore p x ref) := by
  by_cases hp : p ∈ d.keys
  · refine ⟨by rw [keys_insertBefore]; exact h.1, ?_⟩
    have hOK1 : DomOK (d.removeNode x) := domOK_removeNode x h
    obtain ⟨A, B, h1, h2⟩ :=
      setChildren_nodes_decomp (d := d.removeNode x) (p := p) (by rw [keys_removeNode]; exact hp)
    rw [Dom.insertBefore, h2]
    have hstep :
        (A ++ insBefore x ref ((d.removeNode x).childrenOf p) ++ B).Perm
          (x :: (d.removeNode x).nodes) := by
      have e1 : (A ++ insBefore x ref ((d.removeNode x).childrenOf p) ++ B).Perm
          (A ++ (x :: (d.removeNode x).childrenOf p) ++ B) :=
        (((insBefore_perm x ref _).append_left A).append_right B)
      have e2 : (A ++ (x :: (d.removeNode x).childrenOf p) ++ B) =
          A ++ x :: ((d.removeNode x).childrenOf p ++ B) := by
        simp [List.append_assoc]
      have e3 : (A ++ x :: ((d.removeNode x).childrenOf p ++ B)).Perm
          (x :: (A ++ ((d.removeNode x).childrenOf p ++ B))) := List.perm_middle
      have e4 : x :: (A ++ ((d.removeNode x).childrenOf p ++ B)) =
          x :: ((d.removeNode x).nodes) := by
        rw [h1]; simp [List.append_assoc]
      rw [e2] at e1
      rw [e4] at e3
      exact e1.trans e3
    rw [hstep.nodup_iff]
    exact List.nodup_cons.2 ⟨not_mem_nodes_removeNode d x, hOK1.2⟩
  · rw [Dom.insertBefore, setChildren_of_not_mem_keys _ (by rw [keys_removeNode]; exact hp)]
    exact domOK_removeNode x h

theorem domOK_appendChild {d : Dom} (p : ElemId) (x : DNode) (h : DomOK d) :
    DomOK (d.appendChild p x) := by
  by_cases hp : p ∈ d.keys
  · refine ⟨by rw [keys_appendChild]; exact h.1, ?_⟩
    have hOK1 : DomOK (d.removeNode x) := domOK_removeNode x h
    obtain ⟨A, B, h1, h2⟩ :=
      setChildren_nodes_decomp (d := d.removeNode x) (p := p) (by rw [keys_removeNode]; exact hp)
    rw [Dom.appendChild, h2]
    have hstep :
        (A ++ ((d.removeNode x).childrenOf p ++ [x]) ++ B).Perm
          (x :: (d.removeNode x).nodes) := by
      have e1 : (A ++ ((d.removeNode x).childrenOf p ++ [x]) ++ B).Perm
          (A ++ (x :: (d.removeNode x).childrenOf p) ++ B) :=
        (((List.perm_append_singleton x _).append_left A).append_right B)
      have e2 : (A ++ (x :: (d.removeNode x).childrenOf p) ++ B) =
          A ++ x :: ((d.removeNode x).childrenOf p ++ B) := by
        simp [List.append_assoc]
      have e3 : (A ++ x :: ((d.removeNode x).childrenOf p ++ B)).Perm
          (x :: (A ++ ((d.removeNode x).childrenOf p ++ B))) := List.perm_middle
      have e4 : x :: (A ++ ((d.removeNode x).childrenOf p ++ B)) =
          x :: ((d.removeNode x).nodes) := by
        rw [h1]; simp [List.append_assoc]
      rw [e2] at e1
      rw [e4] at e3
      exact e1.trans e3
    rw [hstep.nodup_iff]
    exact List.nodup_cons.2 ⟨not_mem_nodes_removeNode d x, hOK1.2⟩
  · rw [Dom.appendChild, setChildren_of_not_mem_keys _ (by rw [keys_removeNode]; exact hp)]
    exact domOK_removeNode x h

theorem domOK_removeKey {d : Dom} (p : ElemId) (h : DomOK d) : DomOK (d.removeKey p) :=
  ⟨(keys_removeKey_sublist d p).nodup h.1, (nodes_removeKey_sublist d p).nodup h.2⟩

theorem domOK_append_container {d : Dom} (h : DomOK d) (hc : ElemId.container ∉ d.keys) :
    DomOK (d ++ [(ElemId.container, [])]) := by
  constructor
  · rw [keys_append]
    refine List.nodup_append.2 ⟨h.1, List.nodup_singleton _, ?_⟩
    intro a ha hb
    have : a = ElemId.container := by simpa [Dom.keys] using hb
    exact hc (this ▸ ha)
  · rw [nodes_append]
    simpa [Dom.nodes] using h.2

/-- No placeholder node is attached anywhere in the document. -/
def noPhIn (d : Dom) : Prop := ∀ p k, DNode.ph k ∉ d.childrenOf p

theorem not_ph_mem_of_hasPhNode {l : List DNode} (h : hasPhNode l = false) (k : Nat) :
    DNode.ph k ∉ l := by
  induction l with
  | nil => simp
  | cons c cs ih =>
    intro hm
    rcases List.mem_cons.1 hm with e | hm2
    · cases c with
      | vid v => exact DNode.noConfusion e
      | ph j => simp [hasPhNode] at h
      | other n => exact DNode.noConfusion e
    · cases c with
      | vid v => exact ih (by simpa [hasPhNode] using h) hm2
      | ph j => simp [hasPhNode] at h
      | other n => exact ih (by simpa [hasPhNode] using h) hm2

theorem noPhIn_of_hasPhNode {d : Dom} (h : hasPhNode d.nodes = false) : noPhIn d :=
  fun p k hk => not_ph_mem_of_hasPhNode h k (mem_nodes_of_mem_childrenOf hk)

theorem mem_childrenOf_unique {d : Dom} {x : DNode} {p q : ElemId} (hOK : DomOK d)
    (hp : x ∈ d.childrenOf p) (hq : x ∈ d.childrenOf q) : p = q := by
  have h1 := parentOf_eq_some_of_mem hOK hp
  have h2 := parentOf_eq_some_of_mem hOK hq
  exact Option.some.inj (h1.symm.trans h2)

theorem mem_childrenOf_removeNode {d : Dom} {x y : DNode} {q : ElemId}
    (h : y ∈ (d.removeNode x).childrenOf q) : y ∈ d.childrenOf q ∧ y ≠ x := by
  rw [childrenOf_removeNode] at h
  exact mem_eraseN.1 h

theorem mem_childrenOf_insertBefore {d : Dom} {p q : ElemId} {x ref y : DNode}
    (h : y ∈ (d.insertBefore p x ref).childrenOf q) : y = x ∨ y ∈ d.childrenOf q := by
  by_cases hq : q = p
  · subst hq
    by_cases hp : q ∈ d.keys
    · rw [childrenOf_insertBefore_self _ _ hp] at h
      rcases mem_insBefore h with h1 | h1
      · exact Or.inl h1
      · exact Or.inr (mem_eraseN.1 h1).1
    · rw [Dom.insertBefore, setChildren_of_not_mem_keys _ (by rw [keys_removeNode]; exact hp)] at h
      exact Or.inr (mem_childrenOf_removeNode h).1
  · rw [childrenOf_insertBefore_ne _ _ hq] at h
    exact Or.inr (mem_eraseN.1 h).1

theorem mem_childrenOf_appendChild {d : Dom} {p q : ElemId} {x y : DNode}
    (h : y ∈ (d.appendChild p x).childrenOf q) : y = x ∨ y ∈ d.childrenOf q := by
  by_cases hq : q = p
  · subst hq
    by_cases hp : q ∈ d.keys
    · rw [childrenOf_appendChild_self _ hp] at h
      rcases List.mem_append.1 h with h1 | h1
      · exact Or.inr (mem_eraseN.1 h1).1
      · exact Or.inl (List.mem_singleton.1 h1)
    · rw [Dom.appendChild, setChildren_of_not_mem_keys _ (by rw [keys_removeNode]; exact hp)] at h
      exact Or.inr (mem_childrenOf_removeNode h).1
  · rw [childrenOf_appendChild_ne _ hq] at h
    exact Or.inr (mem_eraseN.1 h).1

/-- Shape of the engine state while a video is floating: the video is the
single child of the floating container, the placeholder sits in the video's
original slot (`a ++ placeholder :: b` with the recorded next sibling the
head of `b`), no other placeholder exists anywhere, and the placeholder
carries the video's rendered dimensions. -/
def FloatShape (s : EngineState) (vs : VideoState) : Prop :=
  s.videoState = some vs ∧
  s.floatingContainer = true ∧
  s.dom.childrenOf .container = [DNode.vid vs.video] ∧
  vs.originalParent ≠ ElemId.container ∧
  vs.originalParent ∈ s.dom.keys ∧
  (∃ a b, s.dom.childrenOf vs.originalParent = a ++ DNode.ph vs.placeholder :: b
      ∧ vs.originalNextSibling = b.head?
      ∧ DNode.vid vs.video ∉ a ∧ DNode.vid vs.video ∉ b
      ∧ (∀ k, DNode.ph k ∉ a) ∧ (∀ k, DNode.ph k ∉ b)) ∧
  (∀ p k, DNode.ph k ∈ s.dom.childrenOf p → p = vs.originalParent ∧ k = vs.placeholder) ∧
  s.phDims vs.placeholder = (s.offW vs.video, s.offH vs.video)

/-- Inductive invariant of the floating-player engine: the document is
wellformed, the container element exists exactly when the engine created it,
and depending on the state either the `FloatShape` holds or the document is
placeholder-free with an empty container. -/
def EngInv (s : EngineState) : Prop :=
  DomOK s.dom ∧
  (s.floatingContainer = true ↔ ElemId.container ∈ s.dom.keys) ∧
  (s.isFloating = true → ∃ vs, FloatShape s vs) ∧
  (s.isFloating = false →
    s.videoState = none ∧ noPhIn s.dom ∧ s.dom.childrenOf .container = [])

theorem hideDomOp_spec (d : Dom) (vs : VideoState) (a b : List DNode)
    (hOK : DomOK d)
    (hch : d.childrenOf vs.originalParent = a ++ DNode.ph vs.placeholder :: b)
    (hsib : vs.originalNextSibling = b.head?)
    (hva : DNode.vid vs.video ∉ a) (hvb : DNode.vid vs.video ∉ b)
    (hpa : ∀ k, DNode.ph k ∉ a) (hpb : ∀ k, DNode.ph k ∉ b)
    (hPne : vs.originalParent ≠ ElemId.container)
    (hPkey : vs.originalParent ∈ d.keys)
    (hcont : d.childrenOf .container = [DNode.vid vs.video])
    (hphOnly : ∀ p k, DNode.ph k ∈ d.childrenOf p →
      p = vs.originalParent ∧ k = vs.placeholder) :
    (hideDomOp d vs).childrenOf vs.originalParent = a ++ DNode.vid vs.video :: b ∧
    (hideDomOp d vs).childrenOf .container = [] ∧
    noPhIn (hideDomOp d vs) ∧
    DomOK (hideDomOp d vs) ∧
    (hideDomOp d vs).keys = d.keys := by
  have hvP : DNode.vid vs.video ∉ d.childrenOf vs.originalParent := by
    rw [hch]
    intro hm
    rcases List.mem_append.1 hm with h1 | h1
    · exact hva h1
    · rcases List.mem_cons.1 h1 with h2 | h2
      · exact DNode.noConfusion h2
      · exact hvb h2
  have hnodP : (d.childrenOf vs.originalParent).Nodup :=
    (childrenOf_sublist_nodes d vs.originalParent).nodup hOK.2
  have hphA : DNode.ph vs.placeholder ∉ a := hpa vs.placeholder
  have hdom1 : ∃ dom1 : Dom,
      (match vs.originalNextSibling with
       | some sib =>
         if d.parentOf sib = some vs.originalParent then
           d.insertBefore vs.originalParent (.vid vs.video) sib
         else
           d.appendChild vs.originalParent (.vid vs.video)
       | none => d.appendChild vs.originalParent (.vid vs.video)) = dom1 ∧
      dom1.childrenOf vs.originalParent =
        a ++ DNode.ph vs.placeholder :: DNode.vid vs.video :: b ∧
      dom1.childrenOf .container = [] ∧
      DomOK dom1 ∧ dom1.keys = d.keys ∧
      (∀ q k, DNode.ph k ∈ dom1.childrenOf q → DNode.ph k ∈ d.childrenOf q) := by
    cases hb : b with
    | nil =>
      subst hb
      rw [hsib]
      refine ⟨d.appendChild vs.originalParent (.vid vs.video), rfl, ?_, ?_, ?_, ?_, ?_⟩
      · rw [childrenOf_appendChild_self _ hPkey, hch, eraseN_append,
          eraseN_of_not_mem hva]
        simp [eraseN]
      · rw [childrenOf_appendChild_ne _ hPne.symm, hcont]
        simp [eraseN]
      · exact domOK_appendChild _ _ hOK
      · exact keys_appendChild d _ _
      · intro q k hm
        rcases mem_childrenOf_appendChild hm with h1 | h1
        · exact DNode.noConfusion h1
        · exact h1
    | cons sib btail =>
      subst hb
      rw [hsib]
      have hsibP : sib ∈ d.childrenOf vs.originalParent := by
        rw [hch]
        exact List.mem_append.2 (Or.inr (List.mem_cons.2 (Or.inr (List.mem_cons.2 (Or.inl rfl)))))
      have hcond : d.parentOf sib = some vs.originalParent :=
        parentOf_eq_some_of_mem hOK hsibP
      have hsibA : sib ∉ a := by
        intro hm
        rw [hch] at hnodP
        exact (List.disjoint_of_nodup_append hnodP) hm
          (List.mem_cons.2 (Or.inr (List.mem_cons.2 (Or.inl rfl))))
      have hsibPh : ¬ DNode.ph vs.placeholder = sib := by
        intro e
        exact hpb vs.placeholder (e ▸ List.mem_cons.2 (Or.inl rfl))
      simp only [List.head?]
      rw [if_pos hcond]
      refine ⟨d.insertBefore vs.originalParent (.vid vs.video) sib, rfl, ?_, ?_, ?_, ?_, ?_⟩
      · rw [childrenOf_insertBefore_self _ _ hPkey, eraseN_of_not_mem hvP, hch,
          insBefore_append_left _ _ hsibA]
        have : insBefore (DNode.vid vs.video) sib
            (DNode.ph vs.placeholder :: sib :: btail) =
            DNode.ph vs.placeholder :: DNode.vid vs.video :: sib :: btail := by
          simp only [insBefore]
          rw [if_neg hsibPh]
          simp [insBefore]
        rw [this]
      · rw [childrenOf_insertBefore_ne _ _ hPne.symm, hcont]
        simp [eraseN]
      · exact domOK_insertBefore _ _ _ hOK
      · exact keys_insertBefore d _ _ _
      · intro q k hm
        rcases mem_childrenOf_insertBefore hm with h1 | h1
        · exact DNode.noConfusion h1
        · exact h1
  obtain ⟨dom1, heq, h1, h2, h3, h4, h5⟩ := hdom1
  have hres : hideDomOp d vs = dom1.removeNode (.ph vs.placeholder) := by
    rw [hideDomOp, heq]
  rw [hres]
  refine ⟨?_, ?_, ?_, domOK_removeNode _ h3, by rw [keys_removeNode, h4]⟩
  · rw [childrenOf_removeNode, h1, eraseN_append, eraseN_of_not_mem hphA]
    have : eraseN (DNode.ph vs.placeholder)
        (DNode.ph vs.placeholder :: DNode.vid vs.video :: b) =
        DNode.vid vs.video :: b := by
      simp only [eraseN, if_pos rfl]
      simp only [if_true]
      rw [if_neg (fun e => DNode.noConfusion e), eraseN_of_not_mem (hpb vs.placeholder)]
    rw [this]
  · rw [childrenOf_removeNode, h2]
    rfl
  · intro q k hm
    obtain ⟨hm1, hm2⟩ := mem_childrenOf_removeNode hm
    have := hphOnly q k (h5 q k hm1)
    exact hm2 (by rw [this.2])

theorem showDom_spec (d : Dom) (v : Nat) (P : ElemId) (K : Nat)
    (hOK : DomOK d) (hpar : d.parentOf (.vid v) = some P)
    (hnoPh : noPhIn d) (hcont : d.childrenOf .container = [])
    (hkeyC : ElemId.container ∈ d.keys) :
    ∃ a b, d.childrenOf P = a ++ DNode.vid v :: b ∧
      DNode.vid v ∉ a ∧ DNode.vid v ∉ b ∧
      (∀ k, DNode.ph k ∉ a) ∧ (∀ k, DNode.ph k ∉ b) ∧
      nextAfter (.vid v) (d.childrenOf P) = b.head? ∧
      P ≠ ElemId.container ∧ P ∈ d.keys ∧
      ((d.insertBefore P (.ph K) (.vid v)).appendChild .container (.vid v)).childrenOf P
        = a ++ DNode.ph K :: b ∧
      ((d.insertBefore P (.ph K) (.vid v)).appendChild .container (.vid v)).childrenOf
        .container = [DNode.vid v] ∧
      (∀ q k, DNode.ph k ∈
        ((d.insertBefore P (.ph K) (.vid v)).appendChild .container (.vid v)).childrenOf q →
        q = P ∧ k = K) ∧
      DomOK ((d.insertBefore P (.ph K) (.vid v)).appendChild .container (.vid v)) ∧
      ((d.insertBefore P (.ph K) (.vid v)).appendChild .container (.vid v)).keys = d.keys := by
  have hPkey : P ∈ d.keys := parentOf_mem_keys hpar
  have hvP : DNode.vid v ∈ d.childrenOf P := mem_childrenOf_of_parentOf hOK.1 hpar
  have hPne : P ≠ ElemId.container := by
    intro e
    rw [e, hcont] at hvP
    exact List.not_mem_nil _ hvP
  have hnodP : (d.childrenOf P).Nodup := (childrenOf_sublist_nodes d P).nodup hOK.2
  obtain ⟨a, b, hab, hva, hvb⟩ := mem_decomp_of_nodup hvP hnodP
  have hpa : ∀ k, DNode.ph k ∉ a := by
    intro k hk
    exact hnoPh P k (hab ▸ List.mem_append.2 (Or.inl hk))
  have hpb : ∀ k, DNode.ph k ∉ b := by
    intro k hk
    exact hnoPh P k (hab ▸ List.mem_append.2 (Or.inr (List.mem_cons.2 (Or.inr hk))))
  have hphP : DNode.ph K ∉ d.childrenOf P := hnoPh P K
  have hch1 : (d.insertBefore P (.ph K) (.vid v)).childrenOf P =
      a ++ DNode.ph K :: DNode.vid v :: b := by
    rw [childrenOf_insertBefore_self _ _ hPkey, eraseN_of_not_mem hphP, hab,
      insBefore_append_left _ _ hva, insBefore_cons_self]
  have hcc1 : (d.insertBefore P (.ph K) (.vid v)).childrenOf .container = [] := by
    rw [childrenOf_insertBefore_ne _ _ hPne.symm, hcont]
    rfl
  have hq1 : ∀ q, q ≠ P → (d.insertBefore P (.ph K) (.vid v)).childrenOf q =
      eraseN (.ph K) (d.childrenOf q) := fun q hq => childrenOf_insertBefore_ne _ _ hq
  have hOK1 : DomOK (d.insertBefore P (.ph K) (.vid v)) := domOK_insertBefore _ _ _ hOK
  have hk1 : (d.insertBefore P (.ph K) (.vid v)).keys = d.keys := keys_insertBefore _ _ _ _
  have hch2 : ((d.insertBefore P (.ph K) (.vid v)).appendChild .container
      (.vid v)).childrenOf P = a ++ DNode.ph K :: b := by
    rw [childrenOf_appendChild_ne _ hPne, hch1, eraseN_append, eraseN_of_not_mem hva]
    simp only [eraseN, if_pos rfl]
    rw [if_neg (fun e => DNode.noConfusion e)]
    simp only [if_true]
    rw [eraseN_of_not_mem hvb]
  have hcc2 : ((d.insertBefore P (.ph K) (.vid v)).appendChild .container
      (.vid v)).childrenOf .container = [DNode.vid v] := by
    rw [childrenOf_appendChild_self _ (by rw [hk1]; exact hkeyC), hcc1]
    rfl
  refine ⟨a, b, hab, hva, hvb, hpa, hpb, ?_, hPne, hPkey, hch2, hcc2, ?_, ?_, ?_⟩
  · rw [hab]
    exact nextAfter_decomp hva
  · intro q k hm
    by_cases hq : q = P
    · subst hq
      rw [hch2] at hm
      rcases List.mem_append.1 hm with h1 | h1
      · exact absurd h1 (hpa k)
      · rcases List.mem_cons.1 h1 with h2 | h2
        · exact ⟨rfl, DNode.ph.inj h2⟩
        · exact absurd h2 (hpb k)
    · by_cases hqc : q = ElemId.container
      · subst hqc
        rw [hcc2] at hm
        rcases List.mem_cons.1 hm with h2 | h2
        · exact DNode.noConfusion h2
        · exact absurd h2 (List.not_mem_nil _)
      · rw [childrenOf_appendChild_ne _ hqc, hq1 q hq] at hm
        have h3 := (mem_eraseN.1 (mem_eraseN.1 hm).1).1
        exact absurd h3 (hnoPh q k)
  · exact domOK_appendChild _ _ hOK1
  · rw [keys_appendChild, hk1]

theorem hide_proj (s : EngineState) (vs : VideoState)
    (hfc : s.floatingContainer = true) (hfl : s.isFloating = true)
    (hvs : s.videoState = some vs) :
    (hideFloatingPlayer s).dom = hideDomOp s.dom vs ∧
    (hideFloatingPlayer s).isFloating = false ∧
    (hideFloatingPlayer s).videoState = none ∧
    (hideFloatingPlayer s).floatingContainer = s.floatingContainer ∧
    (hideFloatingPlayer s).isManuallyHidden = s.isManuallyHidden ∧
    (hideFloatingPlayer s).recentlyPlayedVideo = s.recentlyPlayedVideo ∧
    (hideFloatingPlayer s).hasObserver = s.hasObserver ∧
    (hideFloatingPlayer s).hasPlayListener = s.hasPlayListener ∧
    (hideFloatingPlayer s).phDims = s.phDims ∧
    (hideFloatingPlayer s).offW = s.offW ∧
    (hideFloatingPlayer s).offH = s.offH ∧
    (hideFloatingPlayer s).currentSettings = s.currentSettings := by
  simp [hideFloatingPlayer, hfc, hfl, hvs]

theorem hide_id_nofc {s : EngineState} (h : s.floatingContainer = false) :
    hideFloatingPlayer s = s := by
  simp [hideFloatingPlayer, h]

theorem hide_id_notfl {s : EngineState} (h : s.isFloating = false) :
    hideFloatingPlayer s = s := by
  simp [hideFloatingPlayer, h]

theorem hide_id_novs {s : EngineState} (h : s.videoState = none) :
    hideFloatingPlayer s = s := by
  simp [hideFloatingPlayer, h]

theorem show_proj (s : EngineState) (v : Nat) (P : ElemId)
    (hrp : s.recentlyPlayedVideo = some v) (hfc : s.floatingContainer = true)
    (hen : s.currentSettings.enabled = true) (hmh : s.isManuallyHidden = false)
    (hfl : s.isFloating = false) (hpar : s.dom.parentOf (.vid v) = some P) :
    (showFloatingPlayer s).dom =
      (s.dom.insertBefore P (.ph s.freshPh) (.vid v)).appendChild .container (.vid v) ∧
    (showFloatingPlayer s).videoState =
      some ⟨v, P, nextAfter (.vid v) (s.dom.childrenOf P), s.freshPh⟩ ∧
    (showFloatingPlayer s).isFloating = true ∧
    (showFloatingPlayer s).floatingContainer = s.floatingContainer ∧
    (showFloatingPlayer s).phDims =
      (fun k => if k = s.freshPh then (s.offW v, s.offH v) else s.phDims k) ∧
    (showFloatingPlayer s).origStyles =
      (fun k => if k = v then some (s.styleW v, s.styleH v) else s.origStyles k) ∧
    (showFloatingPlayer s).offW = s.offW ∧
    (showFloatingPlayer s).offH = s.offH ∧
    (showFloatingPlayer s).freshPh = s.freshPh + 1 ∧
    (showFloatingPlayer s).isManuallyHidden = s.isManuallyHidden ∧
    (showFloatingPlayer s).recentlyPlayedVideo = s.recentlyPlayedVideo ∧
    (showFloatingPlayer s).hasObserver = s.hasObserver ∧
    (showFloatingPlayer s).currentSettings = s.currentSettings ∧
    (showFloatingPlayer s).styleW v = "100%" ∧
    (showFloatingPlayer s).styleH v = "100%" := by
  simp [showFloatingPlayer, hrp, hfc, hen, hmh, hfl, hpar]

theorem show_id_none {s : EngineState} (h : s.recentlyPlayedVideo = none) :
    showFloatingPlayer s = s := by
  simp [showFloatingPlayer, h]

theorem show_id_nofc {s : EngineState} (h : s.floatingContainer = false) :
    showFloatingPlayer s = s := by
  cases hrp : s.recentlyPlayedVideo <;> simp [showFloatingPlayer, hrp, h]

theorem show_id_dis {s : EngineState} (h : s.currentSettings.enabled = false) :
    showFloatingPlayer s = s := by
  cases hrp : s.recentlyPlayedVideo <;> simp [showFloatingPlayer, hrp, h]

theorem show_id_hidden {s : EngineState} (h : s.isManuallyHidden = true) :
    showFloatingPlayer s = s := by
  cases hrp : s.recentlyPlayedVideo <;> simp [showFloatingPlayer, hrp, h]

theorem show_id_floating {s : EngineState} (h : s.isFloating = true) :
    showFloatingPlayer s = s := by
  cases hrp : s.recentlyPlayedVideo <;> simp [showFloatingPlayer, hrp, h]

theorem show_id_nopar {s : EngineState} {v : Nat} (hrp : s.recentlyPlayedVideo = some v)
    (h : s.dom.parentOf (.vid v) = none) : showFloatingPlayer s = s := by
  simp [showFloatingPlayer, hrp, h]

theorem bool_eq_false {b : Bool} (h : ¬ b = true) : b = false := by
  cases b
  · rfl
  · exact absurd rfl h

theorem engInv_hide {s : EngineState} (h : EngInv s) : EngInv (hideFloatingPlayer s) := by
  by_cases hfc : s.floatingContainer = true
  · by_cases hfl : s.isFloating = true
    · obtain ⟨vs, hvsEq, hcont, hcontCh, hparNe, hparKey, hdecomp, hphOnly, _⟩ :=
        h.2.2.1 hfl
      obtain ⟨a, b, hch, hsib, hva, hvb, hpa, hpb⟩ := hdecomp
      obtain ⟨hdP, hdC, hdPh, hdOK, hdK⟩ :=
        hideDomOp_spec s.dom vs a b h.1 hch hsib hva hvb hpa hpb hparNe hparKey
          hcontCh hphOnly
      obtain ⟨hpd, hpf, hpv, hpc, _, _, _, _, _, _, _, _⟩ := hide_proj s vs hfc hfl hvsEq
      refine ⟨?_, ?_, ?_, ?_⟩
      · rw [hpd]; exact hdOK
      · rw [hpc, hpd, hdK]; exact h.2.1
      · intro hf
        rw [hpf] at hf
        exact absurd hf (by simp)
      · intro _
        refine ⟨hpv, ?_, ?_⟩
        · rw [hpd]; exact hdPh
        · rw [hpd]; exact hdC
    · rw [hide_id_notfl (bool_eq_false hfl)]
      exact h
  · rw [hide_id_nofc (bool_eq_false hfc)]
    exact h

theorem hide_isFloating_false {s : EngineState} (h : EngInv s) :
    (hideFloatingPlayer s).isFloating = false := by
  by_cases hfl : s.isFloating = true
  · obtain ⟨vs, hvsEq, hcont, _⟩ := h.2.2.1 hfl
    exact (hide_proj s vs hcont hfl hvsEq).2.1
  · rw [hide_id_notfl (bool_eq_false hfl)]
    exact bool_eq_false hfl

theorem engInv_show {s : EngineState} (h : EngInv s) : EngInv (showFloatingPlayer s) := by
  cases hrp : s.recentlyPlayedVideo with
  | none => rw [show_id_none hrp]; exact h
  | some v =>
    by_cases hfc : s.floatingContainer = true
    · by_cases hen : s.currentSettings.enabled = true
      · by_cases hmh : s.isManuallyHidden = true
        · rw [show_id_hidden hmh]; exact h
        · by_cases hfl : s.isFloating = true
          · rw [show_id_floating hfl]; exact h
          · have hmh2 : s.isManuallyHidden = false := bool_eq_false hmh
            have hfl2 : s.isFloating = false := bool_eq_false hfl
            cases hpar : s.dom.parentOf (.vid v) with
            | none => rw [show_id_nopar hrp hpar]; exact h
            | some P =>
              have hNF := h.2.2.2 hfl2
              have hkeyC : ElemId.container ∈ s.dom.keys := h.2.1.1 hfc
              obtain ⟨a, b, hab, hva, hvb, hpa, hpb, hnext, hPne, hPkey, hch2, hcc2,
                hphO, hOK2, hkeys2⟩ :=
                showDom_spec s.dom v P s.freshPh h.1 hpar hNF.2.1 hNF.2.2 hkeyC
              obtain ⟨hpd, hpv, hpf, hpc, hpph, _, hpow, hpoh, _, _, _, _, _, _, _⟩ :=
                show_proj s v P hrp hfc hen hmh2 hfl2 hpar
              refine ⟨?_, ?_, ?_, ?_⟩
              · rw [hpd]; exact hOK2
              · rw [hpc, hpd, hkeys2]; exact h.2.1
              · intro _
                refine ⟨⟨v, P, nextAfter (.vid v) (s.dom.childrenOf P), s.freshPh⟩,
                  hpv, ?_, ?_, hPne, ?_, ?_, ?_, ?_⟩
                · rw [hpc]; exact hfc
                · rw [hpd]; exact hcc2
                · rw [hpd, hkeys2]; exact hPkey
                · refine ⟨a, b, ?_, ?_, hva, hvb, hpa, hpb⟩
                  · rw [hpd]; exact hch2
                  · exact hnext
                · intro p k hm
                  rw [hpd] at hm
                  exact hphO p k hm
                · rw [hpph, hpow, hpoh]
                  simp
              · intro hf
                rw [hpf] at hf
                exact absurd hf (by simp)
      · rw [show_id_dis (bool_eq_false hen)]; exact h
    · rw [show_id_nofc (bool_eq_false hfc)]; exact h


theorem childrenOf_single_nil (c p : ElemId) : Dom.childrenOf [(c, [])] p = [] := by
  simp only [Dom.childrenOf]
  split <;> rfl

def engCore (s : EngineState) :
    Dom × Bool × Bool × Option VideoState × (Nat → Nat × Nat) × (Nat → Nat) × (Nat → Nat) :=
  (s.dom, s.floatingContainer, s.isFloating, s.videoState, s.phDims, s.offW, s.offH)

theorem engInv_core {s t : EngineState} (h : EngInv s) (he : engCore t = engCore s) :
    EngInv t := by
  have h1 : t.dom = s.dom := congrArg (fun x => x.1) he
  have h2 : t.floatingContainer = s.floatingContainer := congrArg (fun x => x.2.1) he
  have h3 : t.isFloating = s.isFloating := congrArg (fun x => x.2.2.1) he
  have h4 : t.videoState = s.videoState := congrArg (fun x => x.2.2.2.1) he
  have h5 : t.phDims = s.phDims := congrArg (fun x => x.2.2.2.2.1) he
  have h6 : t.offW = s.offW := congrArg (fun x => x.2.2.2.2.2.1) he
  have h7 : t.offH = s.offH := congrArg (fun x => x.2.2.2.2.2.2) he
  unfold EngInv FloatShape
  unfold EngInv FloatShape at h
  simp only [h1, h2, h3, h4, h5, h6, h7]
  exact h

theorem engInv_hide_c {s t : EngineState} (h : EngInv s) (he : engCore t = engCore s) :
    EngInv (hideFloatingPlayer t) :=
  engInv_hide (engInv_core h he)

theorem engInv_core_hide_c {s t u : EngineState} (h : EngInv s)
    (hu : engCore u = engCore (hideFloatingPlayer t))
    (he : engCore t = engCore s) : EngInv u :=
  engInv_core (engInv_hide_c h he) hu

theorem engInv_obsFold {playing : List Nat} {s3 : EngineState} (h : EngInv s3) :
    EngInv (playing.foldl
      (fun acc v =>
        { acc with
          recentlyPlayedVideo := some v
          observedTargets := acc.observedTargets ++ [DNode.vid v] })
      s3) := by
  induction playing generalizing s3 with
  | nil => exact h
  | cons v vt ih =>
    exact ih (engInv_core h rfl)

theorem engInv_newContainer {s t : EngineState} (h : EngInv s)
    (hfc : s.floatingContainer = false)
    (hd : t.dom = s.dom ++ [(ElemId.container, [])])
    (hc : t.floatingContainer = true)
    (hfl : t.isFloating = s.isFloating)
    (hvs : t.videoState = s.videoState) :
    EngInv t := by
  have hcnot : ElemId.container ∉ s.dom.keys := by
    intro hm
    rw [(h.2.1).2 hm] at hfc
    exact Bool.noConfusion hfc
  have hsfl : s.isFloating = false := by
    by_cases hb : s.isFloating = true
    · obtain ⟨vs, _, hcont, _⟩ := h.2.2.1 hb
      rw [hcont] at hfc
      exact Bool.noConfusion hfc
    · exact bool_eq_false hb
  have hNF := h.2.2.2 hsfl
  refine ⟨?_, ?_, ?_, ?_⟩
  · rw [hd]
    exact domOK_append_container h.1 hcnot
  · rw [hc, hd, keys_append]
    constructor
    · intro _
      exact List.mem_append.2 (Or.inr (by simp [Dom.keys]))
    · intro _
      rfl
  · intro hf
    rw [hfl, hsfl] at hf
    exact Bool.noConfusion hf
  · intro _
    refine ⟨by rw [hvs]; exact hNF.1, ?_, ?_⟩
    · intro p k hm
      rw [hd] at hm
      by_cases hp : p ∈ s.dom.keys
      · rw [childrenOf_append_left _ hp] at hm
        exact hNF.2.1 p k hm
      · rw [childrenOf_append_right _ hp, childrenOf_single_nil] at hm
        exact List.not_mem_nil _ hm
    · rw [hd, childrenOf_append_right _ hcnot, childrenOf_single_nil]

theorem engInv_destroy {s : EngineState} (h : EngInv s) : EngInv (destroyFloatingPlayer s) := by
  have h1 : EngInv (hideFloatingPlayer s) := engInv_hide h
  have hfl1 : (hideFloatingPlayer s).isFloating = false := hide_isFloating_false h
  have hNF := h1.2.2.2 hfl1
  have hnk : ElemId.container ∉ ((hideFloatingPlayer s).dom.removeKey ElemId.container).keys := by
    intro hm2
    exact (mem_keys_removeKey.1 hm2).2 rfl
  simp only [destroyFloatingPlayer]
  refine ⟨domOK_removeKey _ h1.1, ?_, ?_, ?_⟩
  · constructor
    · intro hf
      exact Bool.noConfusion hf
    · intro hm
      exact absurd rfl (mem_keys_removeKey.1 hm).2
  · intro hf
    exact Bool.noConfusion hf
  · intro _
    refine ⟨rfl, ?_, ?_⟩
    · intro p k hm
      by_cases hpc : p = ElemId.container
      · subst hpc
        rw [childrenOf_eq_nil_of_not_mem_keys hnk] at hm
        exact List.not_mem_nil _ hm
      · rw [childrenOf_removeKey_ne hpc] at hm
        exact hNF.2.1 p k hm
    · exact childrenOf_eq_nil_of_not_mem_keys hnk

theorem engInv_step {s : EngineState} (e : Ev) (h : EngInv s) : EngInv (stepEv s e) := by
  cases e with
  | init st playing =>
    simp only [stepEv, initFloatingPlayer]
    by_cases hen : st.enabled = false
    · rw [if_pos hen]
      exact engInv_core h rfl
    · rw [if_neg hen]
      by_cases hfc : ({ s with currentSettings := st } : EngineState).floatingContainer = false
      · rw [if_pos hfc]
        exact engInv_obsFold (engInv_newContainer h hfc rfl rfl rfl rfl)
      · rw [if_neg hfc]
        exact engInv_obsFold (engInv_core h rfl)
  | update st =>
    simp only [stepEv, updateFloatingPlayerSettings]
    split
    · split
      · exact engInv_core_hide_c h rfl rfl
      · exact engInv_hide_c h rfl
    · split
      · exact engInv_core h rfl
      · exact engInv_core h rfl
  | play v =>
    simp only [stepEv]
    split
    · simp only [handleVideoPlay]
      split
      · split
        · split
          · exact engInv_core_hide_c h rfl rfl
          · exact engInv_core_hide_c h rfl rfl
        · split
          · exact engInv_core h rfl
          · exact engInv_core h rfl
      · split
        · exact engInv_core h rfl
        · exact engInv_core h rfl
    · exact h
  | vis t inter =>
    simp only [stepEv]
    split
    · simp only [handleIntersection]
      repeat' split
      all_goals first
        | exact h
        | exact engInv_core h rfl
        | exact engInv_core (engInv_show h) rfl
        | exact engInv_core (engInv_hide h) rfl
    · exact h
  | close =>
    simp only [stepEv]
    split
    · exact engInv_core (engInv_hide h) rfl
    · exact h
  | dragStart cx cy rl rt =>
    simp only [stepEv, startDrag]
    split
    · exact h
    · exact engInv_core h rfl
  | dragMove cx cy =>
    simp only [stepEv, onDrag]
    split
    · exact h
    · split
      · exact h
      · exact engInv_core h rfl
  | dragEnd =>
    exact engInv_core h rfl
  | destroy =>
    exact engInv_destroy h

theorem engInv_of_init {s : EngineState} (h : InitSt s) : EngInv s := by
  refine ⟨h.domOK, ?_, ?_, ?_⟩
  · rw [h.fc]
    constructor
    · intro hf
      exact Bool.noConfusion hf
    · intro hm
      exact absurd hm h.noCont
  · intro hf
    rw [h.fl] at hf
    exact Bool.noConfusion hf
  · intro _
    exact ⟨h.vs, noPhIn_of_hasPhNode h.noPh,
      childrenOf_eq_nil_of_not_mem_keys h.noCont⟩

theorem engInv_run {s : EngineState} (evs : List Ev) (h : EngInv s) : EngInv (runEv s evs) := by
  induction evs generalizing s with
  | nil => exact h
  | cons e evt ih => exact ih (engInv_step e h)

theorem handleVideoPlay_proj (s : EngineState) (vs : VideoState) (B : Nat)
    (hrp : s.recentlyPlayedVideo = some vs.video)
    (hfl : s.isFloating = true) (hvs : s.videoState = some vs)
    (hBne : B ≠ vs.video) :
    (handleVideoPlay s B).dom = (hideFloatingPlayer { s with isManuallyHidden := false }).dom ∧
    (handleVideoPlay s B).isFloating =
      (hideFloatingPlayer { s with isManuallyHidden := false }).isFloating ∧
    (handleVideoPlay s B).isManuallyHidden =
      (hideFloatingPlayer { s with isManuallyHidden := false }).isManuallyHidden := by
  have hcond : s.recentlyPlayedVideo ≠ some B := by
    rw [hrp]
    intro e
    exact hBne (Option.some.inj e).symm
  have hof : ((({ s with isManuallyHidden := false } : EngineState)).isFloating &&
      (match (({ s with isManuallyHidden := false } : EngineState)).videoState with
        | some vs2 => decide (vs2.video ≠ B)
        | none => false)) = true := by
    show (s.isFloating && (match s.videoState with
      | some vs2 => decide (vs2.video ≠ B)
      | none => false)) = true
    rw [hfl, hvs]
    simp only [Bool.true_and]
    exact decide_eq_true (fun e => hBne e.symm)
  simp only [handleVideoPlay, if_pos hcond, hof, eq_self_iff_true, if_true]
  refine ⟨?_, ?_, ?_⟩ <;> (split <;> rfl)

theorem close_proj (s : EngineState) (hfc : s.floatingContainer = true) :
    (stepEv s .close).dom = (hideFloatingPlayer s).dom ∧
    (stepEv s .close).isFloating = (hideFloatingPlayer s).isFloating ∧
    (stepEv s .close).isManuallyHidden = true := by
  simp [stepEv, hfc]

/-- C1: at most one video is ever inside the floating container, and a play
event on a different video `B` while `A` floats restores `A` to its original
parent directly before its recorded next sibling (appended when there is
none) and clears the manual-hide flag. The hypothesis
`recentlyPlayedVideo = some vs.video` reflects that `A` was the video whose
play event made it the tracked one. -/
theorem claimC1_play_switch (s0 : EngineState) (evs : List Ev) (hInit : InitSt s0) :
    (∀ v w, DNode.vid v ∈ (runEv s0 evs).dom.childrenOf .container →
      DNode.vid w ∈ (runEv s0 evs).dom.childrenOf .container → v = w) ∧
    (∀ vs B, (runEv s0 evs).isFloating = true →
      (runEv s0 evs).videoState = some vs →
      (runEv s0 evs).recentlyPlayedVideo = some vs.video →
      (runEv s0 evs).hasPlayListener = true →
      B ≠ vs.video →
      (stepEv (runEv s0 evs) (.play B)).isFloating = false ∧
      (stepEv (runEv s0 evs) (.play B)).isManuallyHidden = false ∧
      DNode.vid vs.video ∈
        (stepEv (runEv s0 evs) (.play B)).dom.childrenOf vs.originalParent ∧
      nextAfter (DNode.vid vs.video)
        ((stepEv (runEv s0 evs) (.play B)).dom.childrenOf vs.originalParent) =
        vs.originalNextSibling ∧
      (stepEv (runEv s0 evs) (.play B)).dom.childrenOf .container = []) := by
  have hI : EngInv (runEv s0 evs) := engInv_run evs (engInv_of_init hInit)
  constructor
  · intro v w hv hw
    by_cases hfl : (runEv s0 evs).isFloating = true
    · obtain ⟨vs, _, _, hcontCh, _⟩ := hI.2.2.1 hfl
      rw [hcontCh] at hv hw
      rcases List.mem_cons.1 hv with h1 | h1
      · rcases List.mem_cons.1 hw with h2 | h2
        · rw [DNode.vid.inj h1, DNode.vid.inj h2]
        · exact absurd h2 (List.not_mem_nil _)
      · exact absurd h1 (List.not_mem_nil _)
    · rw [(hI.2.2.2 (bool_eq_false hfl)).2.2] at hv
      exact absurd hv (List.not_mem_nil _)
  · intro vs B hfl hvs hrp hpl hBne
    obtain ⟨vs2, hvsEq, hcont, hcontCh, hparNe, hparKey, hdecomp, hphOnly, _⟩ :=
      hI.2.2.1 hfl
    have hvseq2 : vs = vs2 := by
      rw [hvsEq] at hvs
      exact (Option.some.inj hvs).symm
    subst hvseq2
    obtain ⟨a, b, hch, hsib, hva, hvb, hpa, hpb⟩ := hdecomp
    obtain ⟨hdP, hdC, hdPh, hdOK, hdK⟩ :=
      hideDomOp_spec (runEv s0 evs).dom vs a b hI.1 hch hsib hva hvb hpa hpb
        hparNe hparKey hcontCh hphOnly
    have hstep : stepEv (runEv s0 evs) (.play B) = handleVideoPlay (runEv s0 evs) B := by
      simp only [stepEv, if_pos hpl]
    obtain ⟨hvd, hvf, hvm⟩ := handleVideoPlay_proj (runEv s0 evs) vs B hrp hfl hvsEq hBne
    obtain ⟨hpd, hpf, _, _, hpm, _, _, _, _, _, _, _⟩ :=
      hide_proj ({ (runEv s0 evs) with isManuallyHidden := false }) vs hcont hfl hvsEq
    rw [hstep]
    have hdomEq : (handleVideoPlay (runEv s0 evs) B).dom = hideDomOp (runEv s0 evs).dom vs := by
      rw [hvd, hpd]
    refine ⟨?_, ?_, ?_, ?_, ?_⟩
    · rw [hvf, hpf]
    · rw [hvm, hpm]
    · rw [hdomEq, hdP]
      exact List.mem_append.2 (Or.inr (List.mem_cons.2 (Or.inl rfl)))
    · rw [hdomEq, hdP, nextAfter_decomp hva, hsib]
    · rw [hdomEq]
      exact hdC

theorem hide_styles (s : EngineState) (vs : VideoState) (wh : String × String)
    (hfc : s.floatingContainer = true) (hfl : s.isFloating = true)
    (hvs : s.videoState = some vs) (hos : s.origStyles vs.video = some wh) :
    (hideFloatingPlayer s).styleW vs.video = wh.1 ∧
    (hideFloatingPlayer s).styleH vs.video = wh.2 := by
  simp [hideFloatingPlayer, hfc, hfl, hvs, hos]

theorem head?_eq_none {b : List DNode} (h : b.head? = none) : b = [] := by
  cases b with
  | nil => rfl
  | cons x xs => simp at h

/-- C2: floating a docked video (`showFloatingPlayer`) and then unfloating it
(`hideFloatingPlayer`) reinserts the video into its original parent directly
before its recorded next sibling when one exists (appended otherwise,
which here restores the children list exactly), restores the video's
original inline width/height styles, removes the placeholder, and leaves the
engine docked. The wellformedness hypotheses (`DomOK`, no placeholder, empty
container) say the starting state is a docked engine state. -/
theorem claimC2_float_unfloat_roundtrip (s : EngineState) (v : Nat) (P : ElemId)
    (hOK : DomOK s.dom)
    (hrp : s.recentlyPlayedVideo = some v) (hfc : s.floatingContainer = true)
    (hen : s.currentSettings.enabled = true) (hmh : s.isManuallyHidden = false)
    (hfl : s.isFloating = false) (hpar : s.dom.parentOf (.vid v) = some P)
    (hnoPh : noPhIn s.dom) (hcont : s.dom.childrenOf .container = [])
    (hkeyC : ElemId.container ∈ s.dom.keys) :
    (hideFloatingPlayer (showFloatingPlayer s)).dom.childrenOf P = s.dom.childrenOf P ∧
    DNode.vid v ∈ (hideFloatingPlayer (showFloatingPlayer s)).dom.childrenOf P ∧
    (∀ sib, nextAfter (.vid v) (s.dom.childrenOf P) = some sib →
      nextAfter (.vid v)
        ((hideFloatingPlayer (showFloatingPlayer s)).dom.childrenOf P) = some sib) ∧
    (nextAfter (.vid v) (s.dom.childrenOf P) = none →
      ((hideFloatingPlayer (showFloatingPlayer s)).dom.childrenOf P).getLast? =
        some (.vid v)) ∧
    (hideFloatingPlayer (showFloatingPlayer s)).styleW v = s.styleW v ∧
    (hideFloatingPlayer (showFloatingPlayer s)).styleH v = s.styleH v ∧
    noPhIn (hideFloatingPlayer (showFloatingPlayer s)).dom ∧
    (hideFloatingPlayer (showFloatingPlayer s)).isFloating = false ∧
    (hideFloatingPlayer (showFloatingPlayer s)).videoState = none := by
  obtain ⟨a, b, hab, hva, hvb, hpa, hpb, hnext, hPne, hPkey, hch2, hcc2, hphO, hOK2, hkeys2⟩ :=
    showDom_spec s.dom v P s.freshPh hOK hpar hnoPh hcont hkeyC
  obtain ⟨hpd, hpv, hpf, hpc, hpph, hpos, hpow, hpoh, hpfr, hpm, hpr, hpo, hpcs, hsw, hsh⟩ :=
    show_proj s v P hrp hfc hen hmh hfl hpar
  have hSfc : (showFloatingPlayer s).floatingContainer = true := by rw [hpc]; exact hfc
  set vs : VideoState := ⟨v, P, nextAfter (.vid v) (s.dom.childrenOf P), s.freshPh⟩ with hvsdef
  obtain ⟨hdP, hdC, hdPh, hdOK, hdK⟩ :=
    hideDomOp_spec (showFloatingPlayer s).dom vs a b (by rw [hpd]; exact hOK2)
      (by rw [hpd]; exact hch2) hnext hva hvb hpa hpb hPne
      (by rw [hpd, hkeys2]; exact hPkey) (by rw [hpd]; exact hcc2)
      (by intro p k hm; rw [hpd] at hm; exact hphO p k hm)
  obtain ⟨hqd, hqf, hqv, _, _, _, _, _, _, _, _, _⟩ :=
    hide_proj (showFloatingPlayer s) vs hSfc hpf hpv
  have hrestore : (hideFloatingPlayer (showFloatingPlayer s)).dom.childrenOf P =
      s.dom.childrenOf P := by
    rw [hqd, hdP, hab]
  have hstyles := hide_styles (showFloatingPlayer s) vs (s.styleW v, s.styleH v)
    hSfc hpf hpv (by rw [hpos]; simp)
  refine ⟨hrestore, ?_, ?_, ?_, hstyles.1, hstyles.2, ?_, hqf, hqv⟩
  · rw [hrestore, hab]
    exact List.mem_append.2 (Or.inr (List.mem_cons.2 (Or.inl rfl)))
  · intro sib hs
    rw [hrestore]
    exact hs
  · intro hs
    have hb : b = [] := by
      rw [hnext] at hs
      exact head?_eq_none hs
    rw [hrestore, hab, hb]
    exact getLast?_append_cons_nil a (.vid v)
  · rw [hqd]
    exact hdPh

theorem hide_isFloating_of_false {s : EngineState} (h : s.isFloating = false) :
    (hideFloatingPlayer s).isFloating = false := by
  rw [hide_id_notfl h]
  exact h

theorem hide_mh (s : EngineState) :
    (hideFloatingPlayer s).isManuallyHidden = s.isManuallyHidden := by
  unfold hideFloatingPlayer
  repeat' split
  all_goals rfl

theorem foldObs_proj (playing : List Nat) (b : EngineState) :
    (playing.foldl
      (fun acc v =>
        { acc with
          recentlyPlayedVideo := some v
          observedTargets := acc.observedTargets ++ [DNode.vid v] })
      b).isFloating = b.isFloating ∧
    (playing.foldl
      (fun acc v =>
        { acc with
          recentlyPlayedVideo := some v
          observedTargets := acc.observedTargets ++ [DNode.vid v] })
      b).offW = b.offW ∧
    (playing.foldl
      (fun acc v =>
        { acc with
          recentlyPlayedVideo := some v
          observedTargets := acc.observedTargets ++ [DNode.vid v] })
      b).offH = b.offH := by
  induction playing generalizing b with
  | nil => exact ⟨rfl, rfl, rfl⟩
  | cons v vt ih => exact ih _

/-- While the manual-hide flag is set and the engine is docked, no event can
make the engine float. -/
theorem no_float_when_hidden {s : EngineState} (hmh : s.isManuallyHidden = true)
    (hfl : s.isFloating = false) (e : Ev) : (stepEv s e).isFloating = false := by
  cases e with
  | init st playing =>
    simp only [stepEv, initFloatingPlayer]
    repeat' split
    all_goals first
      | exact hfl
      | (rw [(foldObs_proj _ _).1]; exact hfl)
  | update st =>
    simp only [stepEv, updateFloatingPlayerSettings]
    repeat' split
    all_goals first
      | exact hfl
      | exact hide_isFloating_of_false hfl
  | play v =>
    simp only [stepEv, handleVideoPlay]
    repeat' split
    all_goals first
      | exact hfl
      | exact hide_isFloating_of_false hfl
  | vis t inter =>
    simp only [stepEv, handleIntersection]
    repeat' split
    all_goals first
      | exact hfl
      | exact hide_isFloating_of_false hfl
      | (rw [show_id_hidden hmh]; exact hfl)
  | close =>
    simp only [stepEv]
    split
    · exact hide_isFloating_of_false hfl
    · exact hfl
  | dragStart cx cy rl rt =>
    simp only [stepEv, startDrag]
    split
    · exact hfl
    · exact hfl
  | dragMove cx cy =>
    simp only [stepEv, onDrag]
    repeat' split
    all_goals exact hfl
  | dragEnd => exact hfl
  | destroy => rfl

theorem play_same_keeps_mh (s : EngineState) (v : Nat)
    (hrp : s.recentlyPlayedVideo = some v) :
    (stepEv s (.play v)).isManuallyHidden = s.isManuallyHidden := by
  have hncond : ¬ (s.recentlyPlayedVideo ≠ some v) := fun hh => hh hrp
  simp only [stepEv, handleVideoPlay, if_neg hncond]
  repeat' split
  all_goals rfl

theorem play_other_clears_mh (s : EngineState) (v : Nat)
    (hrp : s.recentlyPlayedVideo ≠ some v) (hpl : s.hasPlayListener = true) :
    (stepEv s (.play v)).isManuallyHidden = false := by
  simp only [stepEv, if_pos hpl, handleVideoPlay, if_pos hrp]
  repeat' split
  all_goals first
    | rfl
    | (rw [hide_mh])

/-- C3 (amended): an explicit close while floating performs the same
return-to-origin as the visibility-gain reversal and sets the manual-hide
flag; while the flag is set no event floats the video; a play event on the
SAME tracked video leaves the flag unchanged (it does NOT clear it), and
only a play event on a different video clears it. -/
theorem claimC3_close_suppression (s0 : EngineState) (evs : List Ev) (hInit : InitSt s0) :
    (∀ vs, (runEv s0 evs).isFloating = true → (runEv s0 evs).videoState = some vs →
      (stepEv (runEv s0 evs) .close).isFloating = false ∧
      (stepEv (runEv s0 evs) .close).isManuallyHidden = true ∧
      DNode.vid vs.video ∈
        (stepEv (runEv s0 evs) .close).dom.childrenOf vs.originalParent ∧
      nextAfter (DNode.vid vs.video)
        ((stepEv (runEv s0 evs) .close).dom.childrenOf vs.originalParent) =
        vs.originalNextSibling ∧
      (∀ q k, DNode.ph k ∉ (stepEv (runEv s0 evs) .close).dom.childrenOf q)) ∧
    (∀ e, (runEv s0 evs).isManuallyHidden = true → (runEv s0 evs).isFloating = false →
      (stepEv (runEv s0 evs) e).isFloating = false) ∧
    (∀ v, (runEv s0 evs).recentlyPlayedVideo = some v →
      (stepEv (runEv s0 evs) (.play v)).isManuallyHidden =
        (runEv s0 evs).isManuallyHidden) ∧
    (∀ v, (runEv s0 evs).recentlyPlayedVideo ≠ some v →
      (runEv s0 evs).hasPlayListener = true →
      (stepEv (runEv s0 evs) (.play v)).isManuallyHidden = false) := by
  have hI : EngInv (runEv s0 evs) := engInv_run evs (engInv_of_init hInit)
  refine ⟨?_, ?_, ?_, ?_⟩
  · intro vs hfl hvs
    obtain ⟨vs2, hvsEq, hcont, hcontCh, hparNe, hparKey, hdecomp, hphOnly, _⟩ :=
      hI.2.2.1 hfl
    have hvseq2 : vs = vs2 := by
      rw [hvsEq] at hvs
      exact (Option.some.inj hvs).symm
    subst hvseq2
    obtain ⟨a, b, hch, hsib, hva, hvb, hpa, hpb⟩ := hdecomp
    obtain ⟨hdP, hdC, hdPh, hdOK, hdK⟩ :=
      hideDomOp_spec (runEv s0 evs).dom vs a b hI.1 hch hsib hva hvb hpa hpb
        hparNe hparKey hcontCh hphOnly
    obtain ⟨hcd, hcf, hcm⟩ := close_proj (runEv s0 evs) hcont
    obtain ⟨hpd, hpf, _, _, _, _, _, _, _, _, _, _⟩ :=
      hide_proj (runEv s0 evs) vs hcont hfl hvsEq
    have hdomEq : (stepEv (runEv s0 evs) .close).dom =
        hideDomOp (runEv s0 evs).dom vs := by rw [hcd, hpd]
    refine ⟨?_, hcm, ?_, ?_, ?_⟩
    · rw [hcf, hpf]
    · rw [hdomEq, hdP]
      exact List.mem_append.2 (Or.inr (List.mem_cons.2 (Or.inl rfl)))
    · rw [hdomEq, hdP, nextAfter_decomp hva, hsib]
    · intro q k
      rw [hdomEq]
      exact hdPh q k
  · intro e hmh hfl
    exact no_float_when_hidden hmh hfl e
  · intro v hrp
    exact play_same_keeps_mh _ v hrp
  · intro v hrp hpl
    exact play_other_clears_mh _ v hrp hpl

theorem show_off (s : EngineState) :
    (showFloatingPlayer s).offW = s.offW ∧ (showFloatingPlayer s).offH = s.offH := by
  unfold showFloatingPlayer
  repeat' split
  all_goals exact ⟨rfl, rfl⟩

theorem hide_off (s : EngineState) :
    (hideFloatingPlayer s).offW = s.offW ∧ (hideFloatingPlayer s).offH = s.offH := by
  unfold hideFloatingPlayer
  repeat' split
  all_goals exact ⟨rfl, rfl⟩

theorem stepEv_off (s : EngineState) (e : Ev) :
    (stepEv s e).offW = s.offW ∧ (stepEv s e).offH = s.offH := by
  cases e <;>
    simp only [stepEv, initFloatingPlayer, updateFloatingPlayerSettings, handleVideoPlay,
      handleIntersection, startDrag, onDrag, stopDrag, destroyFloatingPlayer] <;>
    repeat' split
  all_goals
    refine ⟨?_, ?_⟩ <;>
    first
      | rfl
      | trivial
      | exact (show_off _).1
      | exact (show_off _).2
      | exact (hide_off _).1
      | exact (hide_off _).2
      | exact (foldObs_proj _ _).2.1
      | exact (foldObs_proj _ _).2.2

theorem runEv_off (s : EngineState) (evs : List Ev) :
    (runEv s evs).offW = s.offW ∧ (runEv s evs).offH = s.offH := by
  induction evs generalizing s with
  | nil => exact ⟨rfl, rfl⟩
  | cons e evt ih =>
    have h1 := stepEv_off s e
    have h2 := ih (stepEv s e)
    exact ⟨h2.1.trans h1.1, h2.2.trans h1.2⟩

/-- C4: in every reachable state a placeholder is attached somewhere in the
document exactly when the engine is floating; while floating, the
placeholder of the recorded `videoState` sits in the video's original parent
and carries the video's rendered dimensions. The rendered dimensions
(`offW`/`offH`) are a fixed environment — no event ever modifies them — so
the recorded placeholder dimensions are exactly those at the moment the
float transition occurred. -/
theorem claimC4_placeholder_iff_floating (s0 : EngineState) (evs : List Ev)
    (hInit : InitSt s0) :
    ((runEv s0 evs).isFloating = true ↔
      ∃ p k, DNode.ph k ∈ (runEv s0 evs).dom.childrenOf p) ∧
    (∀ vs, (runEv s0 evs).isFloating = true → (runEv s0 evs).videoState = some vs →
      DNode.ph vs.placeholder ∈ (runEv s0 evs).dom.childrenOf vs.originalParent ∧
      (runEv s0 evs).phDims vs.placeholder =
        ((runEv s0 evs).offW vs.video, (runEv s0 evs).offH vs.video)) ∧
    (runEv s0 evs).offW = s0.offW ∧ (runEv s0 evs).offH = s0.offH := by
  have hI : EngInv (runEv s0 evs) := engInv_run evs (engInv_of_init hInit)
  refine ⟨⟨?_, ?_⟩, ?_, (runEv_off s0 evs).1, (runEv_off s0 evs).2⟩
  · intro hfl
    obtain ⟨vs, _, _, _, _, _, hdecomp, _, _⟩ := hI.2.2.1 hfl
    obtain ⟨a, b, hch, _⟩ := hdecomp
    refine ⟨vs.originalParent, vs.placeholder, ?_⟩
    rw [hch]
    exact List.mem_append.2 (Or.inr (List.mem_cons.2 (Or.inl rfl)))
  · rintro ⟨p, k, hm⟩
    by_cases hfl : (runEv s0 evs).isFloating = true
    · exact hfl
    · exact absurd hm ((hI.2.2.2 (bool_eq_false hfl)).2.1 p k)
  · intro vs hfl hvs
    obtain ⟨vs2, hvsEq, _, _, _, _, hdecomp, _, hdims⟩ := hI.2.2.1 hfl
    have hvseq2 : vs = vs2 := by
      rw [hvsEq] at hvs
      exact (Option.some.inj hvs).symm
    subst hvseq2
    obtain ⟨a, b, hch, _⟩ := hdecomp
    refine ⟨?_, hdims⟩
    rw [hch]
    exact List.mem_append.2 (Or.inr (List.mem_cons.2 (Or.inl rfl)))

/-- C8: a drag move with any pointer coordinates (also out-of-viewport ones)
sets the container's `left`/`top` clamped to keep the container fully inside
the viewport with a 10-pixel margin on every side (the viewport being large
enough to hold the container plus margins), and leaves the engine's
docked/floating state, video state and document untouched. -/
theorem claimC8_drag_clamps (s : EngineState) (cx cy : Int)
    (hdr : s.isDragging = true) (hfc : s.floatingContainer = true)
    (hvw : ((SIZE_MAP s.currentSettings.size).1 : Int) + 20 ≤ s.viewportW)
    (hvh : ((SIZE_MAP s.currentSettings.size).2 : Int) + 20 ≤ s.viewportH) :
    ∃ x y, (stepEv s (.dragMove cx cy)).contStyle.left = some x ∧
      (stepEv s (.dragMove cx cy)).contStyle.top = some y ∧
      10 ≤ x ∧ x + ((SIZE_MAP s.currentSettings.size).1 : Int) + 10 ≤ s.viewportW ∧
      10 ≤ y ∧ y + ((SIZE_MAP s.currentSettings.size).2 : Int) + 10 ≤ s.viewportH ∧
      (stepEv s (.dragMove cx cy)).isFloating = s.isFloating ∧
      (stepEv s (.dragMove cx cy)).videoState = s.videoState ∧
      (stepEv s (.dragMove cx cy)).dom = s.dom ∧
      (stepEv s (.dragMove cx cy)).isManuallyHidden = s.isManuallyHidden ∧
      (stepEv s (.dragMove cx cy)).recentlyPlayedVideo = s.recentlyPlayedVideo := by
  have hx : max 10 (min (cx - s.dragOffset.1)
      (s.viewportW - ((SIZE_MAP s.currentSettings.size).1 : Int) - 10)) ≤
      s.viewportW - ((SIZE_MAP s.currentSettings.size).1 : Int) - 10 :=
    max_le (by omega) (min_le_right _ _)
  have hy : max 10 (min (cy - s.dragOffset.2)
      (s.viewportH - ((SIZE_MAP s.currentSettings.size).2 : Int) - 10)) ≤
      s.viewportH - ((SIZE_MAP s.currentSettings.size).2 : Int) - 10 :=
    max_le (by omega) (min_le_right _ _)
  simp only [stepEv, onDrag, hdr, hfc]
  refine ⟨max 10 (min (cx - s.dragOffset.1)
      (s.viewportW - ((SIZE_MAP s.currentSettings.size).1 : Int) - 10)),
    max 10 (min (cy - s.dragOffset.2)
      (s.viewportH - ((SIZE_MAP s.currentSettings.size).2 : Int) - 10)),
    ?_, ?_, le_max_left _ _, by omega, le_max_left _ _, by omega,
    rfl, rfl, rfl, rfl, rfl⟩
  · simp
  · simp

/-- Does an event initialize the engine with the feature enabled? -/
def isInitEnabled : Ev → Bool
  | .init st _ => st.enabled
  | _ => false

theorem quiet_step (s : EngineState) (e : Ev)
    (hq : s.floatingContainer = false ∧ s.hasObserver = false ∧
      s.hasPlayListener = false ∧ s.isFloating = false)
    (he : isInitEnabled e = false) :
    (stepEv s e).floatingContainer = false ∧ (stepEv s e).hasObserver = false ∧
    (stepEv s e).hasPlayListener = false ∧ (stepEv s e).isFloating = false := by
  obtain ⟨q1, q2, q3, q4⟩ := hq
  cases e with
  | init st playing =>
    have he2 : st.enabled = false := he
    simp only [stepEv, initFloatingPlayer, if_pos he2]
    exact ⟨q1, q2, q3, q4⟩
  | update st =>
    simp only [stepEv, updateFloatingPlayerSettings]
    repeat' split
    all_goals
      refine ⟨?_, ?_, ?_, ?_⟩ <;>
      first
        | exact q1
        | exact q2
        | exact q3
        | exact q4
        | (rw [hide_id_nofc (show ({ s with currentSettings := st } :
              EngineState).floatingContainer = false from q1)]
           first | exact q1 | exact q2 | exact q3 | exact q4)
  | play v =>
    simp only [stepEv,
      if_neg (show ¬ s.hasPlayListener = true by rw [q3]; exact Bool.false_ne_true)]
    exact ⟨q1, q2, q3, q4⟩
  | vis t inter =>
    simp only [stepEv,
      if_neg (show ¬ s.hasObserver = true by rw [q2]; exact Bool.false_ne_true)]
    exact ⟨q1, q2, q3, q4⟩
  | close =>
    simp only [stepEv,
      if_neg (show ¬ s.floatingContainer = true by rw [q1]; exact Bool.false_ne_true)]
    exact ⟨q1, q2, q3, q4⟩
  | dragStart cx cy rl rt =>
    simp only [stepEv, startDrag, if_pos q1]
    exact ⟨q1, q2, q3, q4⟩
  | dragMove cx cy =>
    simp only [stepEv, onDrag]
    repeat' split
    all_goals exact ⟨q1, q2, q3, q4⟩
  | dragEnd => exact ⟨q1, q2, q3, q4⟩
  | destroy =>
    simp only [stepEv, destroyFloatingPlayer]
    refine ⟨?_, ?_, ?_, ?_⟩ <;> first | rfl | trivial

theorem quiet_run (s : EngineState) (evs : List Ev)
    (hq : s.floatingContainer = false ∧ s.hasObserver = false ∧
      s.hasPlayListener = false ∧ s.isFloating = false)
    (hevs : ∀ e ∈ evs, isInitEnabled e = false) :
    (runEv s evs).floatingContainer = false ∧ (runEv s evs).hasObserver = false ∧
    (runEv s evs).hasPlayListener = false ∧ (runEv s evs).isFloating = false := by
  induction evs generalizing s with
  | nil => exact hq
  | cons e evt ih =>
    exact ih (stepEv s e) (quiet_step s e hq (hevs e (List.mem_cons.2 (Or.inl rfl))))
      (fun e2 hm => hevs e2 (List.mem_cons.2 (Or.inr hm)))

/-- C10: initializing with the feature disabled creates neither the
container, nor the observer, nor the play listener; a later settings update
with the feature enabled creates none of them either, so as long as
`initFloatingPlayer` is not called again with the feature enabled, no event
whatsoever can enter the floating state. -/
theorem claimC10_disabled_no_float (s0 : EngineState) (st1 st2 : FloatingPlayerSettings)
    (pl0 : List Nat) (evs : List Ev) (hInit : InitSt s0)
    (h1 : st1.enabled = false) (h2 : st2.enabled = true)
    (hevs : ∀ e ∈ evs, isInitEnabled e = false) :
    (runEv (stepEv (stepEv s0 (.init st1 pl0)) (.update st2)) evs).floatingContainer
      = false ∧
    (runEv (stepEv (stepEv s0 (.init st1 pl0)) (.update st2)) evs).hasObserver = false ∧
    (runEv (stepEv (stepEv s0 (.init st1 pl0)) (.update st2)) evs).hasPlayListener
      = false ∧
    (runEv (stepEv (stepEv s0 (.init st1 pl0)) (.update st2)) evs).isFloating = false := by
  have hq0 : s0.floatingContainer = false ∧ s0.hasObserver = false ∧
      s0.hasPlayListener = false ∧ s0.isFloating = false :=
    ⟨hInit.fc, hInit.ob, hInit.pl, hInit.fl⟩
  have hq1 := quiet_step s0 (.init st1 pl0) hq0 h1
  have hq2 := quiet_step (stepEv s0 (.init st1 pl0)) (.update st2) hq1 rfl
  exact quiet_run _ evs hq2 hevs

/-- JS `String.prototype.startsWith` on character lists. -/
def startsWithChars : List Char → List Char → Bool
  | [], _ => true
  | _ :: _, [] => false
  | p :: ps, c :: cs => if p = c then startsWithChars ps cs else false

/-- C5: with a video floating, `getVideoEl` returns the floating video
itself whenever any of the candidate blocks (current, left sibling, parent,
collected in that order) holds its placeholder; otherwise it first returns
the floating video to its origin (`returnedFloating = true`) and only then
runs the ordinary prioritized DOM search. -/
theorem claimC5_locator_floating (env : LocEnv) (uuid : Nat) (blk : Block) (fv : Nat)
    (bs2 bs3 : List Nat)
    (h1 : env.getBlock uuid = .ok (some blk))
    (h2 : env.floating = some fv)
    (h3 : collectLeft env blk [blk.uuid] = .ok bs2)
    (h4 : collectParent env blk bs2 = .ok bs3) :
    (bs3.any (fun b => env.hasPH b) = true →
      getVideoEl env uuid = .ok ⟨some fv, false⟩) ∧
    (bs3.any (fun b => env.hasPH b) = false →
      getVideoEl env uuid = .ok ⟨plainSearch env blk, true⟩) := by
  constructor <;> intro hb <;> simp [getVideoEl, h1, h3, h4, h2, hb]

/-- C6: with no video floating, `getVideoEl` performs the prioritized search
current block → left sibling → parent and returns the first video found
(`none` when all fail); in particular a video directly in the current block
wins over any sibling or parent candidate. -/
theorem claimC6_locator_priority (env : LocEnv) (uuid : Nat) (blk : Block)
    (bs2 bs3 : List Nat)
    (h1 : env.getBlock uuid = .ok (some blk))
    (h2 : env.floating = none)
    (h3 : collectLeft env blk [blk.uuid] = .ok bs2)
    (h4 : collectParent env blk bs2 = .ok bs3) :
    getVideoEl env uuid = .ok ⟨plainSearch env blk, false⟩ ∧
    (∀ v1, env.videoIn blk.uuid = some v1 → plainSearch env blk = some v1) ∧
    (env.videoIn blk.uuid = none → ∀ v2, searchVia env blk.left = some v2 →
      plainSearch env blk = some v2) ∧
    (env.videoIn blk.uuid = none → searchVia env blk.left = none →
      plainSearch env blk = searchVia env blk.parent) := by
  refine ⟨by simp [getVideoEl, h1, h3, h4, h2], ?_, ?_, ?_⟩
  · intro v1 hv
    simp [plainSearch, hv]
  · intro hv v2 hl
    simp [plainSearch, hv, hl]
  · intro hv hl
    simp [plainSearch, hv, hl]

/-- Environment exhibiting the unguarded lookup: block 1 exists with left
sibling id 2, and resolving id 2 throws. -/
def envC7 : LocEnv where
  getBlock := fun i =>
    if i = 1 then .ok (some ⟨1, some 2, none⟩)
    else if i = 2 then .error ()
    else .ok none
  videoIn := fun _ => none
  hasPH := fun _ => false
  floating := none

/-- C7 (code bug): a throwing left-sibling lookup is NOT caught by
`getVideoEl` — the candidate-collection phase performs the lookup outside
any try/catch, so the whole call rejects — although the catch-guarded search
phase would have skipped the same candidate (`searchVia` yields `none`). -/
theorem claimC7_unguarded_lookup_throws :
    getVideoEl envC7 1 = .error () ∧
    searchVia envC7 (some 2) = none ∧
    collectLeft envC7 ⟨1, some 2, none⟩ [1] = .error () := by
  exact ⟨rfl, rfl, rfl⟩

/-- C9: inserting a timestamp at playback position `125.7` produces the
macro text with that time; the host's argument split hands the renderer
`:mediatimestamp_42` (passing its guard) and `125.7`, the rendered button is
labeled `Timestamp: 125s` (integer truncation by `parseInt`), and the click
handler seeks the located video to `125` and plays it. -/
theorem claimC9_timestamp_roundtrip :
    slashCommandText 42 ("125.7".data) =
      ("\x7b\x7brenderer :mediatimestamp_42, 125.7\x7d\x7d".data) ∧
    macroArgsOfText (slashCommandText 42 ("125.7".data)) =
      [":mediatimestamp_42".data, "125.7".data] ∧
    startsWithChars (":mediatimestamp_".data) (":mediatimestamp_42".data) = true ∧
    timestampLabel ("125.7".data) = "Timestamp: 125s".data ∧
    (onTimestampClick true ("125.7".data)).seekTo = some 125 := by
  refine ⟨?_, ?_, ?_, ?_, ?_⟩ <;> decide

/-- Concrete initial engine state over a small document: block element 0
holds video 1 followed by another node, block element 1 holds video 2. -/
def exS0 : EngineState where
  recentlyPlayedVideo := none
  floatingContainer := false
  hasObserver := false
  hasPlayListener := false
  isManuallyHidden := false
  isDragging := false
  dragOffset := (0, 0)
  currentSettings := ⟨true, .medium⟩
  videoState := none
  isFloating := false
  dom := [(ElemId.el 0, [DNode.vid 1, DNode.other 9]), (ElemId.el 1, [DNode.vid 2])]
  contStyle := initialContStyle
  observedTargets := []
  styleW := fun _ => "w0"
  styleH := fun _ => "h0"
  origStyles := fun _ => none
  phDims := fun _ => (0, 0)
  freshPh := 0
  offW := fun _ => 320
  offH := fun _ => 180
  viewportW := 1920
  viewportH := 1080

theorem exS0_initSt : InitSt exS0 :=
  ⟨rfl, rfl, rfl, rfl, rfl, rfl, rfl, rfl, by decide, by decide, by decide⟩

/-- Events: enable the engine, play video 1, scroll it out (it floats). -/
def exEvsFloat : List Ev :=
  [.init ⟨true, .medium⟩ [], .play 1, .vis (DNode.vid 1) false]

/-- Events: enable the engine and play video 1 (docked, tracked). -/
def exEvsPlay : List Ev := [.init ⟨true, .medium⟩ [], .play 1]

/-- Events: float video 1, then click the close button. -/
def exEvsClosed : List Ev :=
  [.init ⟨true, .medium⟩ [], .play 1, .vis (DNode.vid 1) false, .close]

/-- Events: float video 1, close it, play the SAME video again, scroll it
out again. -/
def exEvsCounter : List Ev :=
  [.init ⟨true, .medium⟩ [], .play 1, .vis (DNode.vid 1) false, .close,
   .play 1, .vis (DNode.vid 1) false]

/-- Events: enable the engine and start a drag on the handle. -/
def exEvsDrag : List Ev := [.init ⟨true, .medium⟩ [], .dragStart 100 100 50 50]

theorem claimC1_witness :
    InitSt exS0 ∧
    (runEv exS0 exEvsFloat).isFloating = true ∧
    (stepEv (runEv exS0 exEvsFloat) (.play 2)).isFloating = false ∧
    (stepEv (runEv exS0 exEvsFloat) (.play 2)).isManuallyHidden = false ∧
    DNode.vid 1 ∈ (stepEv (runEv exS0 exEvsFloat) (.play 2)).dom.childrenOf (ElemId.el 0) ∧
    nextAfter (DNode.vid 1)
      ((stepEv (runEv exS0 exEvsFloat) (.play 2)).dom.childrenOf (ElemId.el 0)) =
      some (DNode.other 9) := by
  have hc := (claimC1_play_switch exS0 exEvsFloat exS0_initSt).2
    ⟨1, ElemId.el 0, some (DNode.other 9), 0⟩ 2
    (by decide) (by decide) (by decide) (by decide) (by decide)
  exact ⟨exS0_initSt, by decide, hc.1, hc.2.1, hc.2.2.1, hc.2.2.2.1⟩

theorem claimC2_witness :
    DomOK (runEv exS0 exEvsPlay).dom ∧
    (runEv exS0 exEvsPlay).recentlyPlayedVideo = some 1 ∧
    (runEv exS0 exEvsPlay).isFloating = false ∧
    (runEv exS0 exEvsPlay).dom.parentOf (.vid 1) = some (ElemId.el 0) ∧
    hasPhNode (runEv exS0 exEvsPlay).dom.nodes = false ∧
    (hideFloatingPlayer (showFloatingPlayer (runEv exS0 exEvsPlay))).dom.childrenOf
      (ElemId.el 0) = (runEv exS0 exEvsPlay).dom.childrenOf (ElemId.el 0) ∧
    (hideFloatingPlayer (showFloatingPlayer (runEv exS0 exEvsPlay))).styleW 1 =
      (runEv exS0 exEvsPlay).styleW 1 ∧
    (hideFloatingPlayer (showFloatingPlayer (runEv exS0 exEvsPlay))).isFloating = false := by
  have h := claimC2_float_unfloat_roundtrip (runEv exS0 exEvsPlay) 1 (ElemId.el 0)
    (by decide) (by decide) (by decide) (by decide) (by decide) (by decide) (by decide)
    (noPhIn_of_hasPhNode (by decide)) (by decide) (by decide)
  exact ⟨by decide, by decide, by decide, by decide, by decide,
    h.1, h.2.2.2.2.1, h.2.2.2.2.2.2.2.1⟩

/-- C3 counterexample: the engine floats video 1 on the first scroll-out,
the user closes it, video 1 plays again (a play event on the SAME tracked
video), and scrolling it out again does NOT re-float it: the manual-hide
flag is still set even though the feature is enabled, so — contrary to the
claim — a play event on the same video does not make auto-float possible
again. -/
theorem claimC3_counterexample :
    (runEv exS0 exEvsFloat).isFloating = true ∧
    (runEv exS0 exEvsCounter).isFloating = false ∧
    (runEv exS0 exEvsCounter).isManuallyHidden = true ∧
    (runEv exS0 exEvsCounter).recentlyPlayedVideo = some 1 ∧
    (runEv exS0 exEvsCounter).currentSettings.enabled = true := by
  refine ⟨?_, ?_, ?_, ?_, ?_⟩ <;> decide

theorem claimC3_witness :
    (runEv exS0 exEvsFloat).isFloating = true ∧
    (stepEv (runEv exS0 exEvsFloat) .close).isFloating = false ∧
    (stepEv (runEv exS0 exEvsFloat) .close).isManuallyHidden = true ∧
    DNode.vid 1 ∈ (stepEv (runEv exS0 exEvsFloat) .close).dom.childrenOf (ElemId.el 0) ∧
    (stepEv (runEv exS0 exEvsClosed) (.vis (DNode.vid 1) false)).isFloating = false ∧
    (stepEv (runEv exS0 exEvsClosed) (.play 1)).isManuallyHidden =
      (runEv exS0 exEvsClosed).isManuallyHidden ∧
    (stepEv (runEv exS0 exEvsClosed) (.play 2)).isManuallyHidden = false := by
  have hA := (claimC3_close_suppression exS0 exEvsFloat exS0_initSt).1
    ⟨1, ElemId.el 0, some (DNode.other 9), 0⟩ (by decide) (by decide)
  have hB := (claimC3_close_suppression exS0 exEvsClosed exS0_initSt).2.1
    (.vis (DNode.vid 1) false) (by decide) (by decide)
  have hC := (claimC3_close_suppression exS0 exEvsClosed exS0_initSt).2.2.1 1 (by decide)
  have hD := (claimC3_close_suppression exS0 exEvsClosed exS0_initSt).2.2.2 2
    (by decide) (by decide)
  exact ⟨by decide, hA.1, hA.2.1, hA.2.2.1, hB, hC, hD⟩

theorem claimC4_witness :
    InitSt exS0 ∧
    ((runEv exS0 exEvsFloat).isFloating = true ↔
      ∃ p k, DNode.ph k ∈ (runEv exS0 exEvsFloat).dom.childrenOf p) ∧
    (runEv exS0 exEvsFloat).phDims 0 = (320, 180) := by
  have h := claimC4_placeholder_iff_floating exS0 exEvsFloat exS0_initSt
  have h2 := (h.2.1 ⟨1, ElemId.el 0, some (DNode.other 9), 0⟩ (by decide) (by decide)).2
  refine ⟨exS0_initSt, h.1, ?_⟩
  calc (runEv exS0 exEvsFloat).phDims 0
      = ((runEv exS0 exEvsFloat).offW 1, (runEv exS0 exEvsFloat).offH 1) := h2
    _ = (320, 180) := by decide

/-- Locator environment with a floating video (55) whose placeholder sits in
the left-sibling block 2. -/
def envC5 : LocEnv where
  getBlock := fun i =>
    if i = 1 then .ok (some ⟨1, some 2, some 3⟩)
    else if i = 2 then .ok (some ⟨2, none, none⟩)
    else if i = 3 then .ok (some ⟨3, none, none⟩)
    else .ok none
  videoIn := fun _ => none
  hasPH := fun i => decide (i = 2)
  floating := some 55

/-- Locator environment with a floating video (55) whose placeholder sits in
none of the candidate blocks; block 1 itself holds video 88. -/
def envC5B : LocEnv where
  getBlock := fun i =>
    if i = 1 then .ok (some ⟨1, some 2, some 3⟩)
    else if i = 2 then .ok (some ⟨2, none, none⟩)
    else if i = 3 then .ok (some ⟨3, none, none⟩)
    else .ok none
  videoIn := fun i => if i = 1 then some 88 else none
  hasPH := fun _ => false
  floating := some 55

/-- Locator environment with no floating video: block 1 holds video 11, its
left sibling holds 22, its parent holds 33. -/
def envC6 : LocEnv where
  getBlock := fun i =>
    if i = 1 then .ok (some ⟨1, some 2, some 3⟩)
    else if i = 2 then .ok (some ⟨2, none, none⟩)
    else if i = 3 then .ok (some ⟨3, none, none⟩)
    else .ok none
  videoIn := fun i =>
    if i = 1 then some 11 else if i = 2 then some 22 else if i = 3 then some 33 else none
  hasPH := fun _ => false
  floating := none

theorem claimC5_witness :
    envC5.getBlock 1 = .ok (some ⟨1, some 2, some 3⟩) ∧
    envC5.floating = some 55 ∧
    collectLeft envC5 ⟨1, some 2, some 3⟩ [1] = .ok [1, 2] ∧
    collectParent envC5 ⟨1, some 2, some 3⟩ [1, 2] = .ok [1, 2, 3] ∧
    getVideoEl envC5 1 = .ok ⟨some 55, false⟩ ∧
    getVideoEl envC5B 1 = .ok ⟨some 88, true⟩ := by
  have hA := (claimC5_locator_floating envC5 1 ⟨1, some 2, some 3⟩ 55 [1, 2] [1, 2, 3]
    rfl rfl rfl rfl).1 (by decide)
  have hB := (claimC5_locator_floating envC5B 1 ⟨1, some 2, some 3⟩ 55 [1, 2] [1, 2, 3]
    rfl rfl rfl rfl).2 (by decide)
  exact ⟨rfl, rfl, rfl, rfl, hA, hB⟩

theorem claimC6_witness :
    envC6.getBlock 1 = .ok (some ⟨1, some 2, some 3⟩) ∧
    envC6.floating = none ∧
    collectLeft envC6 ⟨1, some 2, some 3⟩ [1] = .ok [1, 2] ∧
    collectParent envC6 ⟨1, some 2, some 3⟩ [1, 2] = .ok [1, 2, 3] ∧
    envC6.videoIn 2 = some 22 ∧
    envC6.videoIn 3 = some 33 ∧
    getVideoEl envC6 1 = .ok ⟨some 11, false⟩ := by
  have h := claimC6_locator_priority envC6 1 ⟨1, some 2, some 3⟩ [1, 2] [1, 2, 3]
    rfl rfl rfl rfl
  have h1 := h.1
  rw [h.2.1 11 rfl] at h1
  exact ⟨rfl, rfl, rfl, rfl, rfl, rfl, h1⟩

/-- The engine state after enabling and grabbing the drag handle. -/
def exDragS : EngineState := runEv exS0 exEvsDrag

theorem claimC8_witness :
    exDragS.isDragging = true ∧
    exDragS.floatingContainer = true ∧
    ((SIZE_MAP exDragS.currentSettings.size).1 : Int) + 20 ≤ exDragS.viewportW ∧
    ((SIZE_MAP exDragS.currentSettings.size).2 : Int) + 20 ≤ exDragS.viewportH ∧
    (∃ x y, (stepEv exDragS (.dragMove 5000 (-300))).contStyle.left = some x ∧
      (stepEv exDragS (.dragMove 5000 (-300))).contStyle.top = some y ∧
      10 ≤ x ∧
      x + ((SIZE_MAP exDragS.currentSettings.size).1 : Int) + 10 ≤ exDragS.viewportW ∧
      10 ≤ y ∧
      y + ((SIZE_MAP exDragS.currentSettings.size).2 : Int) + 10 ≤ exDragS.viewportH ∧
      (stepEv exDragS (.dragMove 5000 (-300))).isFloating = exDragS.isFloating ∧
      (stepEv exDragS (.dragMove 5000 (-300))).videoState = exDragS.videoState ∧
      (stepEv exDragS (.dragMove 5000 (-300))).dom = exDragS.dom ∧
      (stepEv exDragS (.dragMove 5000 (-300))).isManuallyHidden =
        exDragS.isManuallyHidden ∧
      (stepEv exDragS (.dragMove 5000 (-300))).recentlyPlayedVideo =
        exDragS.recentlyPlayedVideo) := by
  refine ⟨by decide, by decide, by decide, by decide, ?_⟩
  exact claimC8_drag_clamps exDragS 5000 (-300) (by decide) (by decide) (by decide)
    (by decide)

/-- Events fired while the engine stayed disabled at init time. -/
def exEvsC10 : List Ev :=
  [.play 3, .vis (DNode.vid 3) false, .update ⟨true, .large⟩, .close]

theorem claimC10_witness :
    InitSt exS0 ∧
    (∀ e ∈ exEvsC10, isInitEnabled e = false) ∧
    (runEv (stepEv (stepEv exS0 (.init ⟨false, .medium⟩ []))
      (.update ⟨true, .medium⟩)) exEvsC10).floatingContainer = false ∧
    (runEv (stepEv (stepEv exS0 (.init ⟨false, .medium⟩ []))
      (.update ⟨true, .medium⟩)) exEvsC10).hasObserver = false ∧
    (runEv (stepEv (stepEv exS0 (.init ⟨false, .medium⟩ []))
      (.update ⟨true, .medium⟩)) exEvsC10).hasPlayListener = false ∧
    (runEv (stepEv (stepEv exS0 (.init ⟨false, .medium⟩ []))
      (.update ⟨true, .medium⟩)) exEvsC10).isFloating = false := by
  have h := claimC10_disabled_no_float exS0 ⟨false, .medium⟩ ⟨true, .medium⟩ []
    exEvsC10 exS0_initSt rfl rfl (by decide)
  exact ⟨exS0_initSt, by decide, h.1, h.2.1, h.2.2.1, h.2.2.2⟩
